import Mathlib

/-!
# The all-watcher state backing (`state/megawatcher.go`)

A shallow embedding of the document handlers (`backingMachine`, `backingUnit`,
`backingService`, `backingRelation`, `backingAnnotation`, `backingStatus`,
`backingConstraints`), of the global-key parser and of the backing engine
(`newAllWatcherStateBacking`, `GetAll`, `Changed`), followed by the properties
proved about them.

Conventions of the embedding.

* A Go `string` is a Lean `String`; byte offsets of the source are byte
  positions (`String.Pos`) here. Go strings that are not valid UTF-8 have no
  counterpart.
* A Go `interface{}` holding a document id or an entity id is a `String`: the
  ids of the collections handled here are strings.
* A Go call returns an `Outcome`: the store it leaves behind, the external
  lookups it performed (in order) and how it ended (`ok`, an `error` value, or a
  panic).
* Code of other packages is a parameter: the lookups `getStatus`,
  `readConstraints`, `tagForGlobalKey` and the query results of every collection
  are fields of `State`.

Two smaller embeddings follow the definitions of the backing: the arguments of
the ListResources endpoint (`resource/api/data.go`, namespace `Resource`) and
the status of an lxd instance (`container/lxd/instance.go`, namespace `Lxd`).
-/

namespace Megawatcher

/-! ## Errors, panics and outcomes -/

/-- Go `error` values as they reach this file: the sentinel `mgo.ErrNotFound`,
which the code compares by identity, and any other error, represented by its
message. An `errorf` value is never identical to the sentinel, whatever its
message. -/
inductive Error where
  | ErrNotFound
  | errorf (msg : String)
deriving DecidableEq, Repr

/-- The `Error()` method: the message of an error. -/
def Error.Error : Error → String
  | .ErrNotFound => "not found"
  | .errorf msg => msg

/-- Key of a store entry: `params.EntityId`. -/
structure EntityId where
  Kind : String
  Id : String
deriving DecidableEq, Repr

/-- Dynamic type of a document handled by the backing: the element type of
`infoSliceType`. -/
inductive DocType where
  | backingMachine
  | backingUnit
  | backingService
  | backingRelation
  | backingAnnotation
  | backingStatus
  | backingConstraints
deriving DecidableEq, Repr

/-- The ways a call of this file can panic. The payload is what the source
formats into the panic value. -/
inductive Panic where
  /-- A failed type assertion `oldInfo.(*params.T)` on the entry stored under `id`. -/
  | typeAssertion (id : EntityId)
  /-- In `backingAnnotation.removed`: "unknown global key %q in state". -/
  | unknownGlobalKey (id : String)
  /-- In `backingStatus.updated`: "status for unexpected entity with id %q; type %T". -/
  | statusUnexpectedEntity (id : String)
  /-- In `backingConstraints.updated`: the same message, raised from its default case. -/
  | constraintsUnexpectedEntity (id : String)
  /-- In `backingStatus.mongoId`: "cannot find mongo id from status document". -/
  | statusMongoId
  /-- In `backingConstraints.mongoId`: "cannot find mongo id from constraints document". -/
  | constraintsMongoId
  /-- In `newAllWatcherStateBacking`: "duplicate collection type %s". -/
  | duplicateCollectionType (docType : DocType)
  /-- In `newAllWatcherStateBacking`: "duplicate collection name %q". -/
  | duplicateCollectionName (name : String)
  /-- In `Changed`: "unknown collection %q in fetch request". -/
  | unknownCollection (name : String)
deriving DecidableEq, Repr

/-- How a call ended. -/
inductive Result where
  | ok
  | error (err : Error)
  | panicked (p : Panic)
deriving DecidableEq, Repr

/-- An external lookup performed by a handler, with the global key it asked for. -/
inductive Lookup where
  | getStatus (key : String)
  | readConstraints (key : String)
deriving DecidableEq, Repr

/-! ## Entity information (`params`) -/

/-- An open port of a unit: `instance.Port`. -/
structure Port where
  Protocol : String
  Number : Int
deriving DecidableEq, Repr

/-- Constraints value published for a service: `constraints.Value`. Its fields
play no part in this file, which only moves whole values around; the value is
represented by its rendering. -/
structure Constraints where
  value : String
deriving DecidableEq, Repr

structure MachineInfo where
  Id : String
  InstanceId : String
  Status : String
  StatusInfo : String
deriving DecidableEq, Repr

structure UnitInfo where
  Name : String
  Service : String
  Series : String
  PublicAddress : String
  PrivateAddress : String
  MachineId : String
  Ports : List Port
  CharmURL : String
  Status : String
  StatusInfo : String
deriving DecidableEq, Repr

structure ServiceInfo where
  Name : String
  Exposed : Bool
  CharmURL : String
  Constraints : Constraints
deriving DecidableEq, Repr

structure Endpoint where
  ServiceName : String
  Relation : String
deriving DecidableEq, Repr

structure RelationInfo where
  Key : String
  Endpoints : List Endpoint
deriving DecidableEq, Repr

structure AnnotationInfo where
  Tag : String
  Annotations : List (String × String)
deriving DecidableEq, Repr

/-- The interface `params.EntityInfo` with its five implementations. -/
inductive Info where
  | machine (i : MachineInfo)
  | unit (i : UnitInfo)
  | service (i : ServiceInfo)
  | relation (i : RelationInfo)
  | annotation (i : AnnotationInfo)
deriving DecidableEq, Repr

/-- Modelled from the spec: the `EntityId()` accessor of each Info variant
(package `params`, not among the sources). The kind strings and the identifying
field are those the handlers of this file use when they build an `EntityId`
themselves. -/
def Info.EntityId : Info → EntityId
  | .machine i => { Kind := "machine", Id := i.Id }
  | .unit i => { Kind := "unit", Id := i.Name }
  | .service i => { Kind := "service", Id := i.Name }
  | .relation i => { Kind := "relation", Id := i.Key }
  | Info.annotation i => { Kind := "annotation", Id := i.Tag }

/-! ## The snapshot store (`multiwatcher.Store`) -/

/-- Modelled from the spec: the Snapshot Store (package `multiwatcher`, not
among the sources), a mapping from `EntityId` to `Info`. It is held as the list
of its Infos, most recently written first; an Info is found under its own
`EntityId`. -/
structure Store where
  entries : List Info
deriving DecidableEq, Repr

/-- Modelled from the spec: a store created empty by the consumer. -/
def Store.empty : Store := ⟨[]⟩

/-- Modelled from the spec: `Get(id)` gives the Info stored for `id`, or absent. -/
def Store.Get (a : Store) (id : EntityId) : Option Info :=
  a.entries.find? (fun i => decide (i.EntityId = id))

/-- Modelled from the spec: `Update(info)` inserts or replaces by the Info's own
`EntityId`. -/
def Store.Update (a : Store) (info : Info) : Store :=
  ⟨info :: a.entries.filter (fun i => decide (i.EntityId ≠ info.EntityId))⟩

/-- Modelled from the spec: `Remove(id)` deletes the entry of `id`; a no-op when
it is absent. -/
def Store.Remove (a : Store) (id : EntityId) : Store :=
  ⟨a.entries.filter (fun i => decide (i.EntityId ≠ id))⟩

/-- Number of entries held. -/
def Store.size (a : Store) : Nat := a.entries.length

/-- What a call leaves behind. -/
structure Outcome where
  store : Store
  lookups : List Lookup
  result : Result
deriving DecidableEq, Repr

/-! ## Documents -/

/-- The fields of `machineDoc` read by this file. -/
structure backingMachine where
  Id : String
  InstanceId : String
deriving DecidableEq, Repr, Inhabited

/-- The fields of `unitDoc` read by this file. `CharmURL` is a `*charm.URL`:
`none` is the nil pointer, `some s` a URL whose `String()` is `s`. -/
structure backingUnit where
  Name : String
  Service : String
  Series : String
  PublicAddress : String
  PrivateAddress : String
  MachineId : String
  Ports : List Port
  CharmURL : Option String
deriving DecidableEq, Repr

/-- The fields of `serviceDoc` read by this file. `CharmURL` holds what
`svc.CharmURL.String()` returns; the source dereferences the pointer without a
nil check, so a service document always carries a charm URL. -/
structure backingService where
  Name : String
  Exposed : Bool
  CharmURL : String
deriving DecidableEq, Repr

/-- An endpoint of `relationDoc`, with the fields read by this file. -/
structure relationEndpoint where
  ServiceName : String
  Relation : String
deriving DecidableEq, Repr

structure backingRelation where
  Key : String
  Endpoints : List relationEndpoint
deriving DecidableEq, Repr

structure backingAnnotation where
  GlobalKey : String
  Tag : String
  Annotations : List (String × String)
deriving DecidableEq, Repr

/-- The fields of `statusDoc` read by this file. -/
structure backingStatus where
  Status : String
  StatusInfo : String
deriving DecidableEq, Repr

/-- A `constraintsDoc`, represented by what its `value()` method returns. -/
structure backingConstraints where
  value : Constraints
deriving DecidableEq, Repr

/-- The interface `backingEntityDoc` with its seven implementations. -/
inductive backingEntityDoc where
  | machine (m : backingMachine)
  | unit (u : backingUnit)
  | service (svc : backingService)
  | relation (r : backingRelation)
  | annotation (a : backingAnnotation)
  | status (s : backingStatus)
  | constraints (s : backingConstraints)
deriving DecidableEq, Repr

/-! ## The state: collections and lookups -/

/-- An `mgo.Collection` as this file uses it: its name, what `Find(nil).All`
yields and what `FindId(id).One` yields, already decoded into the document type
of the collection. -/
structure Collection (α : Type) where
  Name : String
  All : Except Error (List α)
  One : String → Except Error α

/-- The `State` as this file uses it. `getStatus`, `readConstraints` and
`tagForGlobalKey` are functions of package `state` that are not among the
sources; they are taken as given. -/
structure State where
  machines : Collection backingMachine
  units : Collection backingUnit
  services : Collection backingService
  relations : Collection backingRelation
  annotations : Collection backingAnnotation
  statuses : Collection backingStatus
  constraints : Collection backingConstraints
  getStatus : String → Except Error backingStatus
  readConstraints : String → Except Error Constraints
  tagForGlobalKey : String → Option String

/-- Modelled from the spec: the global key of a machine, `m#<id>`
(`machineGlobalKey`, not among the sources). -/
def machineGlobalKey (id : String) : String := "m#" ++ id

/-- Modelled from the spec: the global key of a unit, `u#<name>`
(`unitGlobalKey`, not among the sources). -/
def unitGlobalKey (name : String) : String := "u#" ++ name

/-- Modelled from the spec: the global key of a service, `s#<name>`
(`serviceGlobalKey`, not among the sources). -/
def serviceGlobalKey (name : String) : String := "s#" ++ name

/-! ## Global-key parsing -/

/-- Source: `backingEntityIdForGlobalKey`. `len(key)` is the length in bytes,
`key[0]` and `key[1]` are the bytes at offsets 0 and 1 and `key[2:]` is the
rest from byte offset 2. The bytes compared against are ASCII, so a byte at
offset `i` equals one of them exactly when a character starts at byte position
`i` and is that character, which is what `String.get` tests. The zero
`EntityId` has empty fields. -/
def backingEntityIdForGlobalKey (key : String) : EntityId × Bool :=
  if key.utf8ByteSize < 3 ∨ key.get ⟨1⟩ ≠ '#' then
    ({ Kind := "", Id := "" }, false)
  else
    let id := key.extract ⟨2⟩ key.endPos
    if key.get ⟨0⟩ = 'm' then
      ((Info.machine { Id := id, InstanceId := "", Status := "", StatusInfo := "" }).EntityId, true)
    else if key.get ⟨0⟩ = 'u' then
      ((Info.unit { Name := id, Service := "", Series := "", PublicAddress := "",
                    PrivateAddress := "", MachineId := "", Ports := [], CharmURL := "",
                    Status := "", StatusInfo := "" }).EntityId, true)
    else if key.get ⟨0⟩ = 's' then
      ((Info.service { Name := id, Exposed := false, CharmURL := "",
                       Constraints := ⟨""⟩ }).EntityId, true)
    else
      ({ Kind := "", Id := "" }, false)

/-! ## Document handlers -/

/-- Source: `backingMachine.updated`. -/
def backingMachine.updated (m : backingMachine) (st : State) (store : Store)
    (_id : String) : Outcome :=
  let info : MachineInfo :=
    { Id := m.Id, InstanceId := m.InstanceId, Status := "", StatusInfo := "" }
  match store.Get (Info.machine info).EntityId with
  | none =>
    match st.getStatus (machineGlobalKey m.Id) with
    | .error err => ⟨store, [.getStatus (machineGlobalKey m.Id)], .error err⟩
    | .ok sdoc =>
      ⟨store.Update (.machine { info with Status := sdoc.Status, StatusInfo := sdoc.StatusInfo }),
        [.getStatus (machineGlobalKey m.Id)], .ok⟩
  | some (.machine oldInfo) =>
    ⟨store.Update (.machine { info with Status := oldInfo.Status,
                                        StatusInfo := oldInfo.StatusInfo }), [], .ok⟩
  | some _ => ⟨store, [], .panicked (.typeAssertion (Info.machine info).EntityId)⟩

/-- Source: `backingMachine.removed`. -/
def backingMachine.removed (_svc : backingMachine) (_st : State) (store : Store)
    (id : String) : Outcome :=
  ⟨store.Remove { Kind := "machine", Id := id }, [], .ok⟩

/-- Source: `backingMachine.mongoId`. -/
def backingMachine.mongoId (m : backingMachine) : String := m.Id

/-- Source: `backingUnit.updated`. -/
def backingUnit.updated (u : backingUnit) (st : State) (store : Store)
    (_id : String) : Outcome :=
  let info0 : UnitInfo :=
    { Name := u.Name, Service := u.Service, Series := u.Series,
      PublicAddress := u.PublicAddress, PrivateAddress := u.PrivateAddress,
      MachineId := u.MachineId, Ports := u.Ports, CharmURL := "",
      Status := "", StatusInfo := "" }
  let info : UnitInfo :=
    match u.CharmURL with
    | some url => { info0 with CharmURL := url }
    | none => info0
  match store.Get (Info.unit info).EntityId with
  | none =>
    match st.getStatus (unitGlobalKey u.Name) with
    | .error err => ⟨store, [.getStatus (unitGlobalKey u.Name)], .error err⟩
    | .ok sdoc =>
      ⟨store.Update (.unit { info with Status := sdoc.Status, StatusInfo := sdoc.StatusInfo }),
        [.getStatus (unitGlobalKey u.Name)], .ok⟩
  | some (.unit oldInfo) =>
    ⟨store.Update (.unit { info with Status := oldInfo.Status,
                                     StatusInfo := oldInfo.StatusInfo }), [], .ok⟩
  | some _ => ⟨store, [], .panicked (.typeAssertion (Info.unit info).EntityId)⟩

/-- Source: `backingUnit.removed`. -/
def backingUnit.removed (_svc : backingUnit) (_st : State) (store : Store)
    (id : String) : Outcome :=
  ⟨store.Remove { Kind := "unit", Id := id }, [], .ok⟩

/-- Source: `backingUnit.mongoId`. -/
def backingUnit.mongoId (m : backingUnit) : String := m.Name

/-- Source: `backingService.updated`. -/
def backingService.updated (svc : backingService) (st : State) (store : Store)
    (_id : String) : Outcome :=
  let info : ServiceInfo :=
    { Name := svc.Name, Exposed := svc.Exposed, CharmURL := svc.CharmURL,
      Constraints := ⟨""⟩ }
  match store.Get (Info.service info).EntityId with
  | none =>
    match st.readConstraints (serviceGlobalKey svc.Name) with
    | .error err => ⟨store, [.readConstraints (serviceGlobalKey svc.Name)], .error err⟩
    | .ok c =>
      ⟨store.Update (.service { info with Constraints := c }),
        [.readConstraints (serviceGlobalKey svc.Name)], .ok⟩
  | some (.service oldInfo) =>
    ⟨store.Update (.service { info with Constraints := oldInfo.Constraints }), [], .ok⟩
  | some _ => ⟨store, [], .panicked (.typeAssertion (Info.service info).EntityId)⟩

/-- Source: `backingService.removed`. -/
def backingService.removed (_svc : backingService) (_st : State) (store : Store)
    (id : String) : Outcome :=
  ⟨store.Remove { Kind := "service", Id := id }, [], .ok⟩

/-- Source: `backingService.mongoId`. -/
def backingService.mongoId (m : backingService) : String := m.Name

/-- Source: `backingRelation.updated`. The loop fills `eps[i]` from
`r.Endpoints[i]` for every index. -/
def backingRelation.updated (r : backingRelation) (_st : State) (store : Store)
    (_id : String) : Outcome :=
  let eps : List Endpoint :=
    r.Endpoints.map (fun ep => { ServiceName := ep.ServiceName, Relation := ep.Relation })
  let info : RelationInfo := { Key := r.Key, Endpoints := eps }
  ⟨store.Update (.relation info), [], .ok⟩

/-- Source: `backingRelation.removed`. -/
def backingRelation.removed (_svc : backingRelation) (_st : State) (store : Store)
    (id : String) : Outcome :=
  ⟨store.Remove { Kind := "relation", Id := id }, [], .ok⟩

/-- Source: `backingRelation.mongoId`. -/
def backingRelation.mongoId (m : backingRelation) : String := m.Key

/-- Source: `backingAnnotation.updated`. -/
def backingAnnotation.updated (a : backingAnnotation) (_st : State) (store : Store)
    (_id : String) : Outcome :=
  let info : AnnotationInfo := { Tag := a.Tag, Annotations := a.Annotations }
  ⟨store.Update (Info.annotation info), [], .ok⟩

/-- Source: `backingAnnotation.removed`. -/
def backingAnnotation.removed (_svc : backingAnnotation) (st : State) (store : Store)
    (id : String) : Outcome :=
  match st.tagForGlobalKey id with
  | none => ⟨store, [], .panicked (.unknownGlobalKey id)⟩
  | some tag => ⟨store.Remove { Kind := "annotation", Id := tag }, [], .ok⟩

/-- Source: `backingAnnotation.mongoId`. -/
def backingAnnotation.mongoId (a : backingAnnotation) : String := a.GlobalKey

/-- Source: `backingStatus.updated`. The type switch on the stored Info has the
cases nil, `*params.UnitInfo`, `*params.MachineInfo` and default. -/
def backingStatus.updated (s : backingStatus) (_st : State) (store : Store)
    (id : String) : Outcome :=
  match backingEntityIdForGlobalKey id with
  | (_, false) => ⟨store, [], .ok⟩
  | (parentId, true) =>
    match store.Get parentId with
    | none => ⟨store, [], .ok⟩
    | some (.unit info) =>
      ⟨store.Update (.unit { info with Status := s.Status, StatusInfo := s.StatusInfo }),
        [], .ok⟩
    | some (.machine info) =>
      ⟨store.Update (.machine { info with Status := s.Status, StatusInfo := s.StatusInfo }),
        [], .ok⟩
    | some _ => ⟨store, [], .panicked (.statusUnexpectedEntity id)⟩

/-- Source: `backingStatus.removed`. -/
def backingStatus.removed (_s : backingStatus) (_st : State) (store : Store)
    (_id : String) : Outcome :=
  ⟨store, [], .ok⟩

/-- Source: `backingConstraints.updated`. The type switch on the stored Info has
the cases nil, `*params.UnitInfo, *params.MachineInfo`, `*params.ServiceInfo`
and default. -/
def backingConstraints.updated (s : backingConstraints) (_st : State) (store : Store)
    (id : String) : Outcome :=
  match backingEntityIdForGlobalKey id with
  | (_, false) => ⟨store, [], .ok⟩
  | (parentId, true) =>
    match store.Get parentId with
    | none => ⟨store, [], .ok⟩
    | some (.unit _) => ⟨store, [], .ok⟩
    | some (.machine _) => ⟨store, [], .ok⟩
    | some (.service info) =>
      ⟨store.Update (.service { info with Constraints := s.value }), [], .ok⟩
    | some _ => ⟨store, [], .panicked (.constraintsUnexpectedEntity id)⟩

/-- Source: `backingConstraints.removed`. -/
def backingConstraints.removed (_s : backingConstraints) (_st : State) (store : Store)
    (_id : String) : Outcome :=
  ⟨store, [], .ok⟩

/-- Dynamic dispatch of `updated` through the interface `backingEntityDoc`. -/
def backingEntityDoc.updated (doc : backingEntityDoc) (st : State) (store : Store)
    (id : String) : Outcome :=
  match doc with
  | .machine m => m.updated st store id
  | .unit u => u.updated st store id
  | .service svc => svc.updated st store id
  | .relation r => r.updated st store id
  | backingEntityDoc.annotation a => a.updated st store id
  | .status s => s.updated st store id
  | .constraints s => s.updated st store id

/-- Dynamic dispatch of `removed` through the interface `backingEntityDoc`. -/
def backingEntityDoc.removed (doc : backingEntityDoc) (st : State) (store : Store)
    (id : String) : Outcome :=
  match doc with
  | .machine m => m.removed st store id
  | .unit u => u.removed st store id
  | .service svc => svc.removed st store id
  | .relation r => r.removed st store id
  | backingEntityDoc.annotation a => a.removed st store id
  | .status s => s.removed st store id
  | .constraints s => s.removed st store id

/-- Dynamic dispatch of `mongoId`; the two subsidiary implementations panic. -/
def backingEntityDoc.mongoId (doc : backingEntityDoc) : Except Panic String :=
  match doc with
  | .machine m => .ok m.mongoId
  | .unit u => .ok u.mongoId
  | .service svc => .ok svc.mongoId
  | .relation r => .ok r.mongoId
  | backingEntityDoc.annotation a => .ok a.mongoId
  | .status _ => .error .statusMongoId
  | .constraints _ => .error .constraintsMongoId

/-! ## The backing engine -/

/-- Source: `allWatcherStateCollection`. The embedded `*mgo.Collection` is
represented by its `Name`; its query results are those that `State` holds for
the document type the collection is decoded into (`FindAll`, `FindIdOne`). -/
structure allWatcherStateCollection where
  Name : String
  infoSliceType : DocType
  subsidiary : Bool
deriving DecidableEq, Repr

/-- Source: `allWatcherStateBacking`. A Go map is the list of its key/value
pairs, each key occurring once. -/
structure allWatcherStateBacking where
  st : State
  collectionByName : List (String × allWatcherStateCollection)
  collectionByType : List (DocType × allWatcherStateCollection)

/-- The slice literal `collections` of `newAllWatcherStateBacking`. -/
def collections (st : State) : List allWatcherStateCollection :=
  [ { Name := st.machines.Name, infoSliceType := .backingMachine, subsidiary := false },
    { Name := st.units.Name, infoSliceType := .backingUnit, subsidiary := false },
    { Name := st.services.Name, infoSliceType := .backingService, subsidiary := false },
    { Name := st.relations.Name, infoSliceType := .backingRelation, subsidiary := false },
    { Name := st.annotations.Name, infoSliceType := DocType.backingAnnotation, subsidiary := false },
    { Name := st.statuses.Name, infoSliceType := .backingStatus, subsidiary := true },
    { Name := st.constraints.Name, infoSliceType := .backingConstraints, subsidiary := true } ]

/-- The loop of `newAllWatcherStateBacking` that populates the two maps from a
slice of collections, panicking on a duplicate. -/
def populate (b : allWatcherStateBacking) :
    List allWatcherStateCollection → Except Panic allWatcherStateBacking
  | [] => .ok b
  | c :: rest =>
    let docType := c.infoSliceType
    if (b.collectionByType.lookup docType).isSome then
      .error (.duplicateCollectionType docType)
    else
      let byType := b.collectionByType ++ [(docType, c)]
      if (b.collectionByName.lookup c.Name).isSome then
        .error (.duplicateCollectionName c.Name)
      else
        populate { b with collectionByType := byType,
                          collectionByName := b.collectionByName ++ [(c.Name, c)] } rest

/-- Source: `newAllWatcherStateBacking`. -/
def newAllWatcherStateBacking (st : State) : Except Panic allWatcherStateBacking :=
  populate { st := st, collectionByName := [], collectionByType := [] } (collections st)

/-- The call `c.Find(nil).All(infoSlicePtr.Interface())` followed by the
conversion of every element to `backingEntityDoc`. -/
def allWatcherStateCollection.FindAll (c : allWatcherStateCollection) (st : State) :
    Except Error (List backingEntityDoc) :=
  match c.infoSliceType with
  | .backingMachine => st.machines.All.map (List.map .machine)
  | .backingUnit => st.units.All.map (List.map .unit)
  | .backingService => st.services.All.map (List.map .service)
  | .backingRelation => st.relations.All.map (List.map .relation)
  | DocType.backingAnnotation =>
    st.annotations.All.map (List.map backingEntityDoc.annotation)
  | .backingStatus => st.statuses.All.map (List.map .status)
  | .backingConstraints => st.constraints.All.map (List.map .constraints)

/-- The call `c.FindId(change.Id).One(doc)`. -/
def allWatcherStateCollection.FindIdOne (c : allWatcherStateCollection) (st : State)
    (id : String) : Except Error backingEntityDoc :=
  match c.infoSliceType with
  | .backingMachine => (st.machines.One id).map .machine
  | .backingUnit => (st.units.One id).map .unit
  | .backingService => (st.services.One id).map .service
  | .backingRelation => (st.relations.One id).map .relation
  | DocType.backingAnnotation =>
    (st.annotations.One id).map backingEntityDoc.annotation
  | .backingStatus => (st.statuses.One id).map .status
  | .backingConstraints => (st.constraints.One id).map .constraints

/-- The value `reflect.New(c.infoSliceType.Elem())`: a zero document of the
collection's type. -/
def DocType.new : DocType → backingEntityDoc
  | .backingMachine => .machine { Id := "", InstanceId := "" }
  | .backingUnit =>
    .unit { Name := "", Service := "", Series := "", PublicAddress := "",
            PrivateAddress := "", MachineId := "", Ports := [], CharmURL := none }
  | .backingService => .service { Name := "", Exposed := false, CharmURL := "" }
  | .backingRelation => .relation { Key := "", Endpoints := [] }
  | DocType.backingAnnotation =>
    backingEntityDoc.annotation { GlobalKey := "", Tag := "", Annotations := [] }
  | .backingStatus => .status { Status := "", StatusInfo := "" }
  | .backingConstraints => .constraints { value := ⟨""⟩ }

/-- The inner loop of `GetAll` over the documents of one collection. The value
returned by `info.updated` is discarded, so only a panic stops the loop. -/
def GetAll.infos (st : State) : List backingEntityDoc → Store → Outcome
  | [], all => ⟨all, [], .ok⟩
  | info :: rest, all =>
    match info.mongoId with
    | .error p => ⟨all, [], .panicked p⟩
    | .ok id =>
      let o := info.updated st all id
      match o.result with
      | .panicked p => ⟨o.store, o.lookups, .panicked p⟩
      | _ =>
        let r := GetAll.infos st rest o.store
        ⟨r.store, o.lookups ++ r.lookups, r.result⟩

/-- Source: `allWatcherStateBacking.GetAll`. The source ranges over the map
`collectionByName`, whose iteration order Go leaves unspecified: `order` is the
sequence in which this run visits the map's values. -/
def allWatcherStateBacking.GetAll (b : allWatcherStateBacking) :
    (order : List allWatcherStateCollection) → (all : Store) → Outcome
  | [], all => ⟨all, [], .ok⟩
  | c :: rest, all =>
    if c.subsidiary then
      b.GetAll rest all
    else
      match c.FindAll b.st with
      | .error err =>
        ⟨all, [], .error (.errorf ("cannot get all " ++ c.Name ++ ": " ++ err.Error))⟩
      | .ok infos =>
        let o := GetAll.infos b.st infos all
        match o.result with
        | .ok =>
          let r := b.GetAll rest o.store
          ⟨r.store, o.lookups ++ r.lookups, r.result⟩
        | _ => o

/-- An order in which a run of `GetAll` may visit the collections of `b`: any
arrangement of the values of `collectionByName`. -/
def allWatcherStateBacking.visits (b : allWatcherStateBacking)
    (order : List allWatcherStateCollection) : Prop :=
  order.Perm (b.collectionByName.map Prod.snd)

/-- Source: `watcher.Change`, with the fields read by this file. -/
structure Change where
  C : String
  Id : String
deriving DecidableEq, Repr

/-- Source: `allWatcherStateBacking.Changed`. -/
def allWatcherStateBacking.Changed (b : allWatcherStateBacking) (all : Store)
    (change : Change) : Outcome :=
  match b.collectionByName.lookup change.C with
  | none => ⟨all, [], .panicked (.unknownCollection change.C)⟩
  | some c =>
    let doc := c.infoSliceType.new
    match c.FindIdOne b.st change.Id with
    | .error err =>
      if err = Error.ErrNotFound then
        doc.removed b.st all change.Id
      else
        ⟨all, [], .error err⟩
    | .ok doc => doc.updated b.st all change.Id

/-- The documents that a run of `GetAll` hands to `updated` for collection `c`:
none when `c` is subsidiary, else what the bulk fetch yields. -/
def allWatcherStateCollection.fetched (c : allWatcherStateCollection) (st : State) :
    List backingEntityDoc :=
  if c.subsidiary then []
  else
    match c.FindAll st with
    | .ok infos => infos
    | .error _ => []

/-- The Info that `updated` stores for a document whose entity the store does not
hold yet, when the status lookup for key `k` answers `status k` and the
constraints lookup answers `cons k`. Status and constraints documents store no
Info of their own; the value given for them is never used. -/
def backingEntityDoc.firstInfo (status : String → backingStatus)
    (cons : String → Constraints) : backingEntityDoc → Info
  | .machine m =>
    .machine { Id := m.Id, InstanceId := m.InstanceId,
               Status := (status (machineGlobalKey m.Id)).Status,
               StatusInfo := (status (machineGlobalKey m.Id)).StatusInfo }
  | .unit u =>
    .unit { Name := u.Name, Service := u.Service, Series := u.Series,
            PublicAddress := u.PublicAddress, PrivateAddress := u.PrivateAddress,
            MachineId := u.MachineId, Ports := u.Ports, CharmURL := u.CharmURL.getD "",
            Status := (status (unitGlobalKey u.Name)).Status,
            StatusInfo := (status (unitGlobalKey u.Name)).StatusInfo }
  | .service svc =>
    .service { Name := svc.Name, Exposed := svc.Exposed, CharmURL := svc.CharmURL,
               Constraints := cons (serviceGlobalKey svc.Name) }
  | .relation r =>
    .relation { Key := r.Key,
                Endpoints := r.Endpoints.map
                  (fun ep => { ServiceName := ep.ServiceName, Relation := ep.Relation }) }
  | backingEntityDoc.annotation a =>
    Info.annotation { Tag := a.Tag, Annotations := a.Annotations }
  | .status s => .machine { Id := "", InstanceId := "", Status := s.Status,
                            StatusInfo := s.StatusInfo }
  | .constraints s => .service { Name := "", Exposed := false, CharmURL := "",
                                 Constraints := s.value }

/-! ## The invariant of the store -/

/-- Every entry of the store is keyed by its own Info's EntityId: what `Get`
finds under an EntityId is an Info of that EntityId. -/
def Store.keyedByOwnId (a : Store) : Prop :=
  ∀ (id : EntityId) (info : Info), a.Get id = some info → info.EntityId = id

/-! ## The bytes of a key -/

/-- The bytes of a Go string: its UTF-8 encoding. -/
def globalKeyBytes (key : String) : List UInt8 := key.toUTF8.data.toList

/-! ## Locality of the primary handlers: helper notions -/

/-- Two stores hold the same Info under every EntityId of the given kind. -/
def Store.agreeOn (kind : String) (a b : Store) : Prop :=
  ∀ id : EntityId, id.Kind = kind → a.Get id = b.Get id

/-- A store transformer that reads and writes only EntityIds of the given kind:
it leaves the entries of other kinds as they are, and what it leaves under the
EntityIds of the kind depends only on what the store held under them. -/
def localTo (kind : String) (T : Store → Store) : Prop :=
  (∀ (s : Store) (id : EntityId), id.Kind ≠ kind → (T s).Get id = s.Get id) ∧
  (∀ s1 s2 : Store, Store.agreeOn kind s1 s2 → Store.agreeOn kind (T s1) (T s2))

/-- The write of a primary handler: the Info found under `key` decides, through
`f`, whether an Info is written and which. -/
def Store.modify (a : Store) (key : EntityId) (f : Option Info → Option Info) : Store :=
  match f (a.Get key) with
  | none => a
  | some info => a.Update info

/-- Dynamic type of a document. -/
def backingEntityDoc.docType : backingEntityDoc → DocType
  | .machine _ => .backingMachine
  | .unit _ => .backingUnit
  | .service _ => .backingService
  | .relation _ => .backingRelation
  | backingEntityDoc.annotation _ => DocType.backingAnnotation
  | .status _ => .backingStatus
  | .constraints _ => .backingConstraints

/-- The kind of the EntityIds that the `updated` of a primary document type
reads and writes. The two subsidiary types write under their parent's kind; the
label given for them only tells them apart. -/
def DocType.Kind : DocType → String
  | .backingMachine => "machine"
  | .backingUnit => "unit"
  | .backingService => "service"
  | .backingRelation => "relation"
  | DocType.backingAnnotation => "annotation"
  | .backingStatus => "status"
  | .backingConstraints => "constraints"

/-- The store after the inner loop of `GetAll` has run over the documents
fetched for collection `c`. -/
def allWatcherStateCollection.merged (c : allWatcherStateCollection) (st : State)
    (all : Store) : Store :=
  (GetAll.infos st (c.fetched st) all).store

/-- No two entries of the store have the same EntityId. -/
def Store.wf (a : Store) : Prop := (a.entries.map Info.EntityId).Nodup

/-! ## Concrete data used to exercise the definitions -/

/-- A state holding machine `0` with instance id `i-123`, unit `wordpress/0` and
service `wordpress`, a status and a constraints document, and no relation or
annotation; every status lookup answers `pending` and every constraints lookup
`mem=2G`; the only global key with a tag is `m#0`. -/
def exampleState : State :=
  { machines := ⟨"machines", .ok [⟨"0", "i-123"⟩],
      fun id => if id = "0" then .ok ⟨"0", "i-123"⟩ else .error .ErrNotFound⟩
    units := ⟨"units", .ok [⟨"wordpress/0", "wordpress", "precise", "", "", "0", [], none⟩],
      fun _ => .error .ErrNotFound⟩
    services := ⟨"services", .ok [⟨"wordpress", true, "cs:precise/wordpress-3"⟩],
      fun _ => .error .ErrNotFound⟩
    relations := ⟨"relations", .ok [], fun _ => .error .ErrNotFound⟩
    annotations := ⟨"annotations", .ok [], fun _ => .error .ErrNotFound⟩
    statuses := ⟨"statuses", .ok [⟨"started", ""⟩], fun _ => .error .ErrNotFound⟩
    constraints := ⟨"constraints", .ok [⟨⟨"mem=2G"⟩⟩], fun _ => .error .ErrNotFound⟩
    getStatus := fun _ => .ok ⟨"pending", ""⟩
    readConstraints := fun _ => .ok ⟨"mem=2G"⟩
    tagForGlobalKey := fun key => if key = "m#0" then some "machine-0" else none }

/-- A state whose machine collection lists machine `0` but whose other queries
and lookups all fail with a connection error. -/
def brokenState : State :=
  { machines := ⟨"machines", .ok [⟨"0", "i-123"⟩], fun _ => .error (.errorf "EOF")⟩
    units := ⟨"units", .ok [], fun _ => .error (.errorf "EOF")⟩
    services := ⟨"services", .ok [], fun _ => .error (.errorf "EOF")⟩
    relations := ⟨"relations", .ok [], fun _ => .error (.errorf "EOF")⟩
    annotations := ⟨"annotations", .ok [], fun _ => .error (.errorf "EOF")⟩
    statuses := ⟨"statuses", .ok [], fun _ => .error (.errorf "EOF")⟩
    constraints := ⟨"constraints", .ok [], fun _ => .error (.errorf "EOF")⟩
    getStatus := fun _ => .error (.errorf "EOF")
    readConstraints := fun _ => .error (.errorf "EOF")
    tagForGlobalKey := fun _ => none }

/-- The status that the lookups of `seededState` answer for a seeded key. -/
def seededStatus (key : String) : backingStatus :=
  if key = "m#0" then ⟨"started", ""⟩
  else if key = "u#mysql/0" then ⟨"error", "hook failed"⟩
  else ⟨"pending", ""⟩

/-- The constraints that the lookups of `seededState` answer for a seeded key. -/
def seededConstraints (key : String) : Constraints :=
  if key = "s#mysql" then ⟨"mem=4G"⟩ else ⟨""⟩

/-- A state seeded with two machines, three units and two services, with status
and constraints documents and no relation or annotation. The status lookup
succeeds for the global keys of the seeded machines and units only, the
constraints lookup for those of the seeded services only. -/
def seededState : State :=
  { machines := ⟨"machines", .ok [⟨"0", "i-123"⟩, ⟨"1", "i-124"⟩],
      fun _ => .error .ErrNotFound⟩
    units := ⟨"units",
      .ok [⟨"wordpress/0", "wordpress", "precise", "", "", "0", [], none⟩,
           ⟨"wordpress/1", "wordpress", "precise", "", "", "1", [],
             some "cs:precise/wordpress-3"⟩,
           ⟨"mysql/0", "mysql", "precise", "", "", "1", [⟨"tcp", 3306⟩], none⟩],
      fun _ => .error .ErrNotFound⟩
    services := ⟨"services",
      .ok [⟨"wordpress", true, "cs:precise/wordpress-3"⟩,
           ⟨"mysql", false, "cs:precise/mysql-1"⟩],
      fun _ => .error .ErrNotFound⟩
    relations := ⟨"relations", .ok [], fun _ => .error .ErrNotFound⟩
    annotations := ⟨"annotations", .ok [], fun _ => .error .ErrNotFound⟩
    statuses := ⟨"statuses", .ok [⟨"started", ""⟩, ⟨"error", "hook failed"⟩],
      fun _ => .error .ErrNotFound⟩
    constraints := ⟨"constraints", .ok [⟨⟨"mem=4G"⟩⟩], fun _ => .error .ErrNotFound⟩
    getStatus := fun key =>
      if key ∈ ["m#0", "m#1", "u#wordpress/0", "u#wordpress/1", "u#mysql/0"] then
        .ok (seededStatus key)
      else .error (.errorf "status not found")
    readConstraints := fun key =>
      if key ∈ ["s#wordpress", "s#mysql"] then .ok (seededConstraints key)
      else .error (.errorf "constraints not found")
    tagForGlobalKey := fun _ => none }

/-- The state `exampleState` with the bulk fetch of its unit collection failing. -/
def unitsDownState : State :=
  { exampleState with
    units := ⟨"units", .error (.errorf "EOF"), fun _ => .error (.errorf "EOF")⟩ }

/-- The backing that `newAllWatcherStateBacking` builds over a state whose
collections bear distinct names. -/
def backingOf (st : State) : allWatcherStateBacking :=
  { st := st
    collectionByName := (collections st).map (fun c => (c.Name, c))
    collectionByType := (collections st).map (fun c => (c.infoSliceType, c)) }

/-- A store holding two machines, a unit, a service and an annotation. -/
def exampleStore : Store :=
  ⟨[.machine ⟨"0", "i-123", "error", "boom"⟩,
    .machine ⟨"1", "i-124", "started", ""⟩,
    .unit ⟨"wordpress/0", "wordpress", "precise", "", "", "0", [], "", "error", "hook failed"⟩,
    .service ⟨"wordpress", false, "cs:precise/wordpress-3", ⟨"mem=1G"⟩⟩,
    Info.annotation ⟨"machine-0", [("owner", "admin")]⟩]⟩

end Megawatcher

/-! # Resource API arguments (`resource/api/data.go`) -/

namespace Resource

/-- Source: `params.Entity`, with the field set by this file. -/
structure Entity where
  Tag : String
deriving DecidableEq, Repr

/-- Source: `params.ListResourcesArgs`, with the field set by this file. A nil
slice is the empty list. -/
structure ListResourcesArgs where
  Entities : List Entity
deriving DecidableEq, Repr

/-- What `data.go` takes from package `names` and from the `%q` verb of
`errors.Errorf`, none of which is among the sources: `IsValidApplication`, the
string of `NewApplicationTag(service)`, and the quoted rendering of a string. -/
structure Names where
  IsValidApplication : String → Bool
  ApplicationTag : String → String
  quote : String → String

/-- Source: `resolveErrors`. A Go `error` is represented by its message, `nil` by
`none`; `strings.Join(msgs, "\n")` is `String.intercalate`. -/
def resolveErrors (errs : List String) : Option String :=
  match errs with
  | [] => none
  | [err] => some err
  | _ => some ("\n".intercalate errs)

/-- The loop of `NewListResourcesArgs`: one step per service, appending either
to `errs` or to `args.Entities`. -/
def NewListResourcesArgs.loop (names : Names) :
    List String → ListResourcesArgs → List String → ListResourcesArgs × List String
  | [], args, errs => (args, errs)
  | service :: rest, args, errs =>
    if !names.IsValidApplication service then
      let err := "invalid application " ++ names.quote service
      NewListResourcesArgs.loop names rest args (errs ++ [err])
    else
      NewListResourcesArgs.loop names rest
        { Entities := args.Entities ++ [{ Tag := names.ApplicationTag service }] } errs

/-- Source: `NewListResourcesArgs`. `errors.Trace` records where the error
passed and keeps its message, so the traced error has the message of
`resolveErrors(errs)`. -/
def NewListResourcesArgs (names : Names) (services : List String) :
    ListResourcesArgs × Option String :=
  let r := NewListResourcesArgs.loop names services { Entities := [] } []
  match resolveErrors r.2 with
  | some err => (r.1, some err)
  | none => (r.1, none)

/-- A stand-in for package `names`, used to evaluate the definitions on
concrete lists: an application name is valid when it is not empty and made of
lower-case letters, digits and `-`; the tag is `application-<name>`; `%q` puts
the string between double quotes. -/
def exampleNames : Names :=
  { IsValidApplication := fun s =>
      s ≠ "" && s.data.all (fun c => c.isLower || c.isDigit || c = '-')
    ApplicationTag := fun s => "application-" ++ s
    quote := fun s => "\"" ++ s ++ "\"" }

end Resource

/-! # The status of an lxd instance (`container/lxd/instance.go`) -/

namespace Lxd

/-- The constants of `api.StatusCode` (package `github.com/lxc/lxd/shared/api`,
not among the sources) that `Status` names. `StatusCode` is an integer type. -/
structure StatusCodes where
  Starting : Int
  Started : Int
  Running : Int
  Freezing : Int
  Frozen : Int
  Thawed : Int
  Stopping : Int
  Stopped : Int

/-- The constants of `status.Status` (package `status`, not among the sources)
that `Status` names. `status.Status` is a string type. -/
structure Statuses where
  Pending : String
  Empty : String
  Allocating : String
  Running : String

/-- Source: `api.ContainerState`, with the fields read by `Status`. -/
structure ContainerState where
  Status : String
  StatusCode : Int
deriving DecidableEq, Repr

/-- Source: `instance.InstanceStatus`. -/
structure InstanceStatus where
  Status : String
  Message : String
deriving DecidableEq, Repr

/-- Source: `lxdInstance`. Of the server only `GetContainerState` is used; it
yields the state of a container or an error, represented by its message (the
ETag it also returns is discarded by the caller). -/
structure lxdInstance where
  id : String
  GetContainerState : String → Except String ContainerState

set_option linter.unusedVariables false in
/-- Source: `lxdInstance.Status`. The cases of the switch are tried in source
order; `%v` on an error is its message. -/
def lxdInstance.Status (api : StatusCodes) (status : Statuses) (lxd : lxdInstance) :
    InstanceStatus :=
  let jujuStatus := status.Pending
  match lxd.GetContainerState lxd.id with
  | .error err =>
    { Status := status.Empty, Message := "could not get status: " ++ err }
  | .ok instStatus =>
    let jujuStatus :=
      if instStatus.StatusCode = api.Starting ∨ instStatus.StatusCode = api.Started then
        status.Allocating
      else if instStatus.StatusCode = api.Running then
        status.Running
      else if instStatus.StatusCode = api.Freezing ∨ instStatus.StatusCode = api.Frozen ∨
          instStatus.StatusCode = api.Thawed ∨ instStatus.StatusCode = api.Stopping ∨
          instStatus.StatusCode = api.Stopped then
        status.Empty
      else
        status.Empty
    { Status := jujuStatus, Message := instStatus.Status }

/-- The values of the status codes in lxd, used to evaluate the definitions. -/
def lxdStatusCodes : StatusCodes :=
  { Starting := 106, Started := 101, Running := 103, Freezing := 109, Frozen := 110,
    Thawed := 111, Stopping := 107, Stopped := 102 }

/-- The values of the status names in juju, used to evaluate the definitions. -/
def jujuStatuses : Statuses :=
  { Pending := "pending", Empty := "", Allocating := "allocating", Running := "running" }

end Lxd

namespace Megawatcher

/-! ## The store: basic facts -/

theorem Store.Get_EntityId {a : Store} {id : EntityId} {info : Info}
    (h : a.Get id = some info) : info.EntityId = id := by
  have := List.find?_some h
  simpa using this

theorem Store.Get_Update_self (a : Store) (info : Info) :
    (a.Update info).Get info.EntityId = some info := by
  simp [Store.Get, Store.Update]

theorem Store.Get_Update_other (a : Store) (info : Info) {id : EntityId}
    (h : id ≠ info.EntityId) : (a.Update info).Get id = a.Get id := by
  have h1 : info.EntityId ≠ id := fun e => h e.symm
  simp only [Store.Get, Store.Update]
  rw [List.find?_cons_of_neg _ (by simpa using h1)]
  induction a.entries with
  | nil => rfl
  | cons x xs ih =>
    by_cases hx : x.EntityId = info.EntityId
    · have hx2 : x.EntityId ≠ id := by rw [hx]; exact h1
      rw [List.filter_cons_of_neg (by simpa using hx),
        List.find?_cons_of_neg _ (by simpa using hx2)]
      exact ih
    · rw [List.filter_cons_of_pos (by simpa using hx)]
      by_cases hx2 : x.EntityId = id
      · rw [List.find?_cons_of_pos _ (by simpa using hx2),
          List.find?_cons_of_pos _ (by simpa using hx2)]
      · rw [List.find?_cons_of_neg _ (by simpa using hx2),
          List.find?_cons_of_neg _ (by simpa using hx2)]
        exact ih

theorem Store.Get_Remove_self (a : Store) (id : EntityId) :
    (a.Remove id).Get id = none := by
  simp only [Store.Get, Store.Remove]
  rw [List.find?_eq_none]
  intro x hx
  have := (List.mem_filter.mp hx).2
  simpa using this

theorem Store.Get_Remove_other (a : Store) {id other : EntityId} (h : other ≠ id) :
    (a.Remove id).Get other = a.Get other := by
  simp only [Store.Get, Store.Remove]
  induction a.entries with
  | nil => rfl
  | cons x xs ih =>
    by_cases hx : x.EntityId = id
    · have hx2 : x.EntityId ≠ other := by rw [hx]; exact fun e => h e.symm
      rw [List.filter_cons_of_neg (by simpa using hx),
        List.find?_cons_of_neg _ (by simpa using hx2)]
      exact ih
    · rw [List.filter_cons_of_pos (by simpa using hx)]
      by_cases hx2 : x.EntityId = other
      · rw [List.find?_cons_of_pos _ (by simpa using hx2),
          List.find?_cons_of_pos _ (by simpa using hx2)]
      · rw [List.find?_cons_of_neg _ (by simpa using hx2),
          List.find?_cons_of_neg _ (by simpa using hx2)]
        exact ih

theorem Store.size_Update_absent (a : Store) (info : Info)
    (h : a.Get info.EntityId = none) : (a.Update info).size = a.size + 1 := by
  simp only [Store.Get, List.find?_eq_none] at h
  simp only [Store.size, Store.Update, List.length_cons, add_left_inj]
  congr 1
  rw [List.filter_eq_self]
  intro x hx
  simpa using h x hx

/-! ## The loops of `GetAll` on documents not seen before -/

theorem GetAll.infos_fresh (st : State) (val : backingEntityDoc → Info) :
    ∀ (docs : List backingEntityDoc) (all : Store),
      (∀ d ∈ docs, ∀ a : Store, a.Get (val d).EntityId = none →
        ∃ i ls, d.mongoId = .ok i ∧ d.updated st a i = ⟨a.Update (val d), ls, .ok⟩) →
      (docs.map (fun d => (val d).EntityId)).Nodup →
      (∀ d ∈ docs, all.Get (val d).EntityId = none) →
      (GetAll.infos st docs all).result = .ok ∧
      (GetAll.infos st docs all).store.size = all.size + docs.length ∧
      (∀ d ∈ docs, (GetAll.infos st docs all).store.Get (val d).EntityId = some (val d)) ∧
      (∀ id : EntityId, (∀ d ∈ docs, id ≠ (val d).EntityId) →
        (GetAll.infos st docs all).store.Get id = all.Get id) := by
  intro docs
  induction docs with
  | nil =>
    intro all _ _ _
    simp [GetAll.infos]
  | cons d ds ih =>
    intro all hstep hnd habs
    obtain ⟨i, ls, hmid, hupd⟩ := hstep d (List.mem_cons_self _ _) all
      (habs d (List.mem_cons_self _ _))
    rw [List.map_cons, List.nodup_cons] at hnd
    have hne : ∀ e ∈ ds, (val e).EntityId ≠ (val d).EntityId := by
      intro e he heq
      exact hnd.1 (List.mem_map.mpr ⟨e, he, heq⟩)
    have habs2 : ∀ e ∈ ds, (all.Update (val d)).Get (val e).EntityId = none := by
      intro e he
      rw [Store.Get_Update_other _ _ (hne e he)]
      exact habs e (List.mem_cons_of_mem _ he)
    obtain ⟨r1, r2, r3, r4⟩ := ih (all.Update (val d))
      (fun e he => hstep e (List.mem_cons_of_mem _ he)) hnd.2 habs2
    have e : GetAll.infos st (d :: ds) all =
        ⟨(GetAll.infos st ds (all.Update (val d))).store,
          ls ++ (GetAll.infos st ds (all.Update (val d))).lookups,
          (GetAll.infos st ds (all.Update (val d))).result⟩ := by
      simp only [GetAll.infos, hmid, hupd]
    rw [e]
    refine ⟨r1, ?_, ?_, ?_⟩
    · show (GetAll.infos st ds (all.Update (val d))).store.size = _
      rw [r2, Store.size_Update_absent _ _ (habs d (List.mem_cons_self _ _)),
        List.length_cons]
      omega
    · intro e he
      show (GetAll.infos st ds (all.Update (val d))).store.Get _ = _
      rcases List.mem_cons.mp he with rfl | he
      · rw [r4 _ (fun f hf => (hne f hf).symm)]
        exact Store.Get_Update_self _ _
      · exact r3 e he
    · intro id hid
      show (GetAll.infos st ds (all.Update (val d))).store.Get _ = _
      rw [r4 id (fun f hf => hid f (List.mem_cons_of_mem _ hf))]
      exact Store.Get_Update_other _ _ (hid d (List.mem_cons_self _ _))

theorem GetAll_fresh (b : allWatcherStateBacking) (val : backingEntityDoc → Info) :
    ∀ (order : List allWatcherStateCollection) (all : Store),
      (∀ c ∈ order, c.subsidiary = false → ∃ infos, c.FindAll b.st = .ok infos) →
      (∀ d ∈ order.flatMap (fun c => c.fetched b.st), ∀ a : Store,
        a.Get (val d).EntityId = none →
        ∃ i ls, d.mongoId = .ok i ∧ d.updated b.st a i = ⟨a.Update (val d), ls, .ok⟩) →
      ((order.flatMap (fun c => c.fetched b.st)).map (fun d => (val d).EntityId)).Nodup →
      (∀ d ∈ order.flatMap (fun c => c.fetched b.st), all.Get (val d).EntityId = none) →
      (b.GetAll order all).result = .ok ∧
      (b.GetAll order all).store.size =
        all.size + (order.flatMap (fun c => c.fetched b.st)).length ∧
      (∀ d ∈ order.flatMap (fun c => c.fetched b.st),
        (b.GetAll order all).store.Get (val d).EntityId = some (val d)) ∧
      (∀ id : EntityId,
        (∀ d ∈ order.flatMap (fun c => c.fetched b.st), id ≠ (val d).EntityId) →
        (b.GetAll order all).store.Get id = all.Get id) := by
  intro order
  induction order with
  | nil =>
    intro all _ _ _ _
    simp [allWatcherStateBacking.GetAll]
  | cons c rest ih =>
    intro all hfetch hstep hnd habs
    have hfetch2 : ∀ c2 ∈ rest, c2.subsidiary = false →
        ∃ infos, c2.FindAll b.st = .ok infos :=
      fun c2 h2 => hfetch c2 (List.mem_cons_of_mem _ h2)
    rw [List.flatMap_cons] at hstep hnd habs ⊢
    cases hsub : c.subsidiary with
    | true =>
      have hf : c.fetched b.st = [] := by simp [allWatcherStateCollection.fetched, hsub]
      rw [hf, List.nil_append] at hstep hnd habs ⊢
      have e : b.GetAll (c :: rest) all = b.GetAll rest all := by
        simp [allWatcherStateBacking.GetAll, hsub]
      rw [e]
      exact ih all hfetch2 hstep hnd habs
    | false =>
      obtain ⟨infos, hinfos⟩ := hfetch c (List.mem_cons_self _ _) hsub
      have hf : c.fetched b.st = infos := by
        simp [allWatcherStateCollection.fetched, hsub, hinfos]
      rw [hf] at hstep hnd habs ⊢
      rw [List.map_append, List.nodup_append] at hnd
      obtain ⟨hnd1, hnd2, hdisj⟩ := hnd
      have hne : ∀ d ∈ infos, ∀ e ∈ rest.flatMap (fun c => c.fetched b.st),
          (val e).EntityId ≠ (val d).EntityId := by
        intro d hd e he heq
        exact hdisj (List.mem_map.mpr ⟨d, hd, rfl⟩) (List.mem_map.mpr ⟨e, he, heq⟩)
      obtain ⟨i1, i2, i3, i4⟩ := GetAll.infos_fresh b.st val infos all
        (fun d hd => hstep d (List.mem_append_left _ hd)) hnd1
        (fun d hd => habs d (List.mem_append_left _ hd))
      have habs2 : ∀ e ∈ rest.flatMap (fun c => c.fetched b.st),
          (GetAll.infos b.st infos all).store.Get (val e).EntityId = none := by
        intro e he
        rw [i4 _ (fun d hd => hne d hd e he)]
        exact habs e (List.mem_append_right _ he)
      obtain ⟨r1, r2, r3, r4⟩ := ih (GetAll.infos b.st infos all).store hfetch2
        (fun d hd => hstep d (List.mem_append_right _ hd)) hnd2 habs2
      have e : b.GetAll (c :: rest) all =
          ⟨(b.GetAll rest (GetAll.infos b.st infos all).store).store,
            (GetAll.infos b.st infos all).lookups ++
              (b.GetAll rest (GetAll.infos b.st infos all).store).lookups,
            (b.GetAll rest (GetAll.infos b.st infos all).store).result⟩ := by
        simp [allWatcherStateBacking.GetAll, hsub, hinfos, i1]
      rw [e]
      refine ⟨r1, ?_, ?_, ?_⟩
      · show (b.GetAll rest (GetAll.infos b.st infos all).store).store.size = _
        rw [r2, i2, List.length_append]
        omega
      · intro d hd
        show (b.GetAll rest (GetAll.infos b.st infos all).store).store.Get _ = _
        rcases List.mem_append.mp hd with hd | hd
        · rw [r4 _ (fun f hf => (hne d hd f hf).symm)]
          exact i3 d hd
        · exact r3 d hd
      · intro id hid
        show (b.GetAll rest (GetAll.infos b.st infos all).store).store.Get _ = _
        rw [r4 id (fun f hf => hid f (List.mem_append_right _ hf))]
        exact i4 id (fun f hf => hid f (List.mem_append_left _ hf))

theorem populate_ok : ∀ (cs : List allWatcherStateCollection)
    (b0 b : allWatcherStateBacking), populate b0 cs = .ok b →
    b.st = b0.st ∧
    b.collectionByName = b0.collectionByName ++ cs.map (fun c => (c.Name, c)) := by
  intro cs
  induction cs with
  | nil =>
    intro b0 b h
    simp only [populate, Except.ok.injEq] at h
    subst h
    simp
  | cons c rest ih =>
    intro b0 b h
    simp only [populate] at h
    split at h
    · cases h
    · split at h
      · cases h
      · obtain ⟨h1, h2⟩ := ih _ _ h
        refine ⟨h1, ?_⟩
        rw [h2]
        simp

theorem newAllWatcherStateBacking_ok {st : State} {b : allWatcherStateBacking}
    (h : newAllWatcherStateBacking st = .ok b) :
    b.st = st ∧ b.collectionByName.map Prod.snd = collections st := by
  obtain ⟨h1, h2⟩ := populate_ok _ _ _ h
  refine ⟨h1, ?_⟩
  rw [h2]
  simp [List.map_map, Function.comp_def]

/-! ## Properties of the document handlers -/

/-- C1: when the store already holds an Info for the entity, `updated` of a
machine, unit or service document performs no lookup, returns no error and
stores an Info whose document fields are those of the new document and whose
`Status` and `StatusInfo` (for a service: `Constraints`) are those of the prior
Info. -/
theorem primary_updated_preserves_prior (st : State) (store : Store) (id : String) :
    (∀ (m : backingMachine) (old : Info),
        store.Get { Kind := "machine", Id := m.Id } = some old →
        ∃ oldInfo : MachineInfo, old = .machine oldInfo ∧
          (m.updated st store id).result = .ok ∧
          (m.updated st store id).lookups = [] ∧
          (m.updated st store id).store.Get { Kind := "machine", Id := m.Id } =
            some (.machine { Id := m.Id, InstanceId := m.InstanceId,
                             Status := oldInfo.Status, StatusInfo := oldInfo.StatusInfo })) ∧
    (∀ (u : backingUnit) (old : Info),
        store.Get { Kind := "unit", Id := u.Name } = some old →
        ∃ oldInfo : UnitInfo, old = .unit oldInfo ∧
          (u.updated st store id).result = .ok ∧
          (u.updated st store id).lookups = [] ∧
          (u.updated st store id).store.Get { Kind := "unit", Id := u.Name } =
            some (.unit { Name := u.Name, Service := u.Service, Series := u.Series,
                          PublicAddress := u.PublicAddress,
                          PrivateAddress := u.PrivateAddress, MachineId := u.MachineId,
                          Ports := u.Ports, CharmURL := u.CharmURL.getD "",
                          Status := oldInfo.Status, StatusInfo := oldInfo.StatusInfo })) ∧
    (∀ (svc : backingService) (old : Info),
        store.Get { Kind := "service", Id := svc.Name } = some old →
        ∃ oldInfo : ServiceInfo, old = .service oldInfo ∧
          (svc.updated st store id).result = .ok ∧
          (svc.updated st store id).lookups = [] ∧
          (svc.updated st store id).store.Get { Kind := "service", Id := svc.Name } =
            some (.service { Name := svc.Name, Exposed := svc.Exposed,
                             CharmURL := svc.CharmURL,
                             Constraints := oldInfo.Constraints })) := by
  refine ⟨?_, ?_, ?_⟩
  · intro m old h
    have hk := Store.Get_EntityId h
    cases old with
    | machine oi =>
      refine ⟨oi, rfl, ?_⟩
      simp only [backingMachine.updated, Info.EntityId, h]
      exact ⟨trivial, trivial, Store.Get_Update_self _ _⟩
    | unit oi => simp [Info.EntityId] at hk
    | service oi => simp [Info.EntityId] at hk
    | relation oi => simp [Info.EntityId] at hk
    | annotation oi => simp [Info.EntityId] at hk
  · intro u old h
    have hk := Store.Get_EntityId h
    cases old with
    | unit oi =>
      refine ⟨oi, rfl, ?_⟩
      cases hc : u.CharmURL <;>
        simp only [backingUnit.updated, Info.EntityId, h, hc, Option.getD] <;>
        exact ⟨trivial, trivial, Store.Get_Update_self _ _⟩
    | machine oi => simp [Info.EntityId] at hk
    | service oi => simp [Info.EntityId] at hk
    | relation oi => simp [Info.EntityId] at hk
    | annotation oi => simp [Info.EntityId] at hk
  · intro svc old h
    have hk := Store.Get_EntityId h
    cases old with
    | service oi =>
      refine ⟨oi, rfl, ?_⟩
      simp only [backingService.updated, Info.EntityId, h]
      exact ⟨trivial, trivial, Store.Get_Update_self _ _⟩
    | machine oi => simp [Info.EntityId] at hk
    | unit oi => simp [Info.EntityId] at hk
    | relation oi => simp [Info.EntityId] at hk
    | annotation oi => simp [Info.EntityId] at hk

theorem primary_updated_preserves_prior_witness :
    exampleStore.Get { Kind := "machine", Id := "0" } =
        some (.machine ⟨"0", "i-123", "error", "boom"⟩) ∧
      ∃ oldInfo : MachineInfo, Info.machine ⟨"0", "i-123", "error", "boom"⟩ = .machine oldInfo ∧
        (backingMachine.updated ⟨"0", "i-456"⟩ exampleState exampleStore "0").result = .ok ∧
        (backingMachine.updated ⟨"0", "i-456"⟩ exampleState exampleStore "0").lookups = [] ∧
        (backingMachine.updated ⟨"0", "i-456"⟩ exampleState exampleStore "0").store.Get
            { Kind := "machine", Id := "0" } =
          some (.machine { Id := "0", InstanceId := "i-456",
                           Status := oldInfo.Status, StatusInfo := oldInfo.StatusInfo }) :=
  ⟨by decide,
    (primary_updated_preserves_prior exampleState exampleStore "0").1 ⟨"0", "i-456"⟩
      (.machine ⟨"0", "i-123", "error", "boom"⟩) (by decide)⟩

/-- C2: when the store has no entry for the entity, `updated` of a machine
(unit, service) document performs exactly one lookup, the status (status,
constraints) lookup for the entity's global key; when the lookup succeeds the
stored Info carries the looked-up values, and a further `updated` for the same
entity on the resulting store performs no lookup. -/
theorem first_observation_lookup (st : State) (store : Store) (id : String) :
    (∀ m : backingMachine, store.Get { Kind := "machine", Id := m.Id } = none →
      (m.updated st store id).lookups = [Lookup.getStatus (machineGlobalKey m.Id)] ∧
      ∀ sdoc : backingStatus, st.getStatus (machineGlobalKey m.Id) = .ok sdoc →
        (m.updated st store id).result = .ok ∧
        (m.updated st store id).store.Get { Kind := "machine", Id := m.Id } =
          some (.machine { Id := m.Id, InstanceId := m.InstanceId,
                           Status := sdoc.Status, StatusInfo := sdoc.StatusInfo }) ∧
        ∀ (m2 : backingMachine) (st2 : State) (id2 : String), m2.Id = m.Id →
          (m2.updated st2 (m.updated st store id).store id2).lookups = []) ∧
    (∀ u : backingUnit, store.Get { Kind := "unit", Id := u.Name } = none →
      (u.updated st store id).lookups = [Lookup.getStatus (unitGlobalKey u.Name)] ∧
      ∀ sdoc : backingStatus, st.getStatus (unitGlobalKey u.Name) = .ok sdoc →
        (u.updated st store id).result = .ok ∧
        (u.updated st store id).store.Get { Kind := "unit", Id := u.Name } =
          some (.unit { Name := u.Name, Service := u.Service, Series := u.Series,
                        PublicAddress := u.PublicAddress,
                        PrivateAddress := u.PrivateAddress, MachineId := u.MachineId,
                        Ports := u.Ports, CharmURL := u.CharmURL.getD "",
                        Status := sdoc.Status, StatusInfo := sdoc.StatusInfo }) ∧
        ∀ (u2 : backingUnit) (st2 : State) (id2 : String), u2.Name = u.Name →
          (u2.updated st2 (u.updated st store id).store id2).lookups = []) ∧
    (∀ svc : backingService, store.Get { Kind := "service", Id := svc.Name } = none →
      (svc.updated st store id).lookups =
        [Lookup.readConstraints (serviceGlobalKey svc.Name)] ∧
      ∀ c : Constraints, st.readConstraints (serviceGlobalKey svc.Name) = .ok c →
        (svc.updated st store id).result = .ok ∧
        (svc.updated st store id).store.Get { Kind := "service", Id := svc.Name } =
          some (.service { Name := svc.Name, Exposed := svc.Exposed,
                           CharmURL := svc.CharmURL, Constraints := c }) ∧
        ∀ (svc2 : backingService) (st2 : State) (id2 : String), svc2.Name = svc.Name →
          (svc2.updated st2 (svc.updated st store id).store id2).lookups = []) := by
  refine ⟨?_, ?_, ?_⟩
  · intro m h
    constructor
    · simp only [backingMachine.updated, Info.EntityId, h]
      cases st.getStatus (machineGlobalKey m.Id) <;> rfl
    · intro sdoc hs
      have e : m.updated st store id =
          ⟨store.Update (.machine
              { Id := m.Id, InstanceId := m.InstanceId,
                Status := sdoc.Status, StatusInfo := sdoc.StatusInfo }),
            [Lookup.getStatus (machineGlobalKey m.Id)], .ok⟩ := by
        simp only [backingMachine.updated, Info.EntityId, h, hs]
      rw [e]
      refine ⟨rfl, Store.Get_Update_self _ _, ?_⟩
      intro m2 st2 id2 h2
      have hg := Store.Get_Update_self store (.machine
        { Id := m.Id, InstanceId := m.InstanceId,
          Status := sdoc.Status, StatusInfo := sdoc.StatusInfo })
      simp only [Info.EntityId] at hg
      simp only [backingMachine.updated, Info.EntityId, h2, hg]
  · intro u h
    constructor
    · cases hc : u.CharmURL <;>
        simp only [backingUnit.updated, Info.EntityId, h, hc] <;>
        cases st.getStatus (unitGlobalKey u.Name) <;> rfl
    · intro sdoc hs
      have e : u.updated st store id =
          ⟨store.Update (.unit
              { Name := u.Name, Service := u.Service, Series := u.Series,
                PublicAddress := u.PublicAddress, PrivateAddress := u.PrivateAddress,
                MachineId := u.MachineId, Ports := u.Ports, CharmURL := u.CharmURL.getD "",
                Status := sdoc.Status, StatusInfo := sdoc.StatusInfo }),
            [Lookup.getStatus (unitGlobalKey u.Name)], .ok⟩ := by
        cases hc : u.CharmURL <;>
          simp only [backingUnit.updated, Info.EntityId, h, hs, hc, Option.getD]
      rw [e]
      refine ⟨rfl, Store.Get_Update_self _ _, ?_⟩
      intro u2 st2 id2 h2
      have hg := Store.Get_Update_self store (.unit
        { Name := u.Name, Service := u.Service, Series := u.Series,
          PublicAddress := u.PublicAddress, PrivateAddress := u.PrivateAddress,
          MachineId := u.MachineId, Ports := u.Ports, CharmURL := u.CharmURL.getD "",
          Status := sdoc.Status, StatusInfo := sdoc.StatusInfo })
      simp only [Info.EntityId] at hg
      cases hc : u2.CharmURL <;>
        simp only [backingUnit.updated, Info.EntityId, h2, hg, hc]
  · intro svc h
    constructor
    · simp only [backingService.updated, Info.EntityId, h]
      cases st.readConstraints (serviceGlobalKey svc.Name) <;> rfl
    · intro c hs
      have e : svc.updated st store id =
          ⟨store.Update (.service
              { Name := svc.Name, Exposed := svc.Exposed,
                CharmURL := svc.CharmURL, Constraints := c }),
            [Lookup.readConstraints (serviceGlobalKey svc.Name)], .ok⟩ := by
        simp only [backingService.updated, Info.EntityId, h, hs]
      rw [e]
      refine ⟨rfl, Store.Get_Update_self _ _, ?_⟩
      intro svc2 st2 id2 h2
      have hg := Store.Get_Update_self store (.service
        { Name := svc.Name, Exposed := svc.Exposed,
          CharmURL := svc.CharmURL, Constraints := c })
      simp only [Info.EntityId] at hg
      simp only [backingService.updated, Info.EntityId, h2, hg]

theorem first_observation_lookup_witness :
    Store.empty.Get { Kind := "machine", Id := "0" } = none ∧
      (backingMachine.updated ⟨"0", "i-123"⟩ exampleState Store.empty "0").lookups =
        [Lookup.getStatus (machineGlobalKey "0")] ∧
      ∀ sdoc : backingStatus, exampleState.getStatus (machineGlobalKey "0") = .ok sdoc →
        (backingMachine.updated ⟨"0", "i-123"⟩ exampleState Store.empty "0").result = .ok ∧
        (backingMachine.updated ⟨"0", "i-123"⟩ exampleState Store.empty "0").store.Get
            { Kind := "machine", Id := "0" } =
          some (.machine { Id := "0", InstanceId := "i-123",
                           Status := sdoc.Status, StatusInfo := sdoc.StatusInfo }) ∧
        ∀ (m2 : backingMachine) (st2 : State) (id2 : String), m2.Id = "0" →
          (m2.updated st2
            (backingMachine.updated ⟨"0", "i-123"⟩ exampleState Store.empty "0").store
            id2).lookups = [] :=
  ⟨by decide,
    (first_observation_lookup exampleState Store.empty "0").1 ⟨"0", "i-123"⟩ (by decide)⟩

/-- C3: when the global key of a status document resolves to a parent whose
MachineInfo (or UnitInfo) is in the store, `backingStatus.updated` returns no
error and replaces that entry by a copy whose `Status` and `StatusInfo` are
those of the status document, every other field being that of the prior Info;
every other entry of the store is unchanged. -/
theorem status_updated_merges_into_parent (s : backingStatus) (st : State) (store : Store)
    (id : String) (parentId : EntityId)
    (hkey : backingEntityIdForGlobalKey id = (parentId, true)) :
    (∀ info : MachineInfo, store.Get parentId = some (.machine info) →
      (s.updated st store id).result = .ok ∧
      (s.updated st store id).store.Get parentId =
        some (.machine { Id := info.Id, InstanceId := info.InstanceId,
                         Status := s.Status, StatusInfo := s.StatusInfo }) ∧
      ∀ other : EntityId, other ≠ parentId →
        (s.updated st store id).store.Get other = store.Get other) ∧
    (∀ info : UnitInfo, store.Get parentId = some (.unit info) →
      (s.updated st store id).result = .ok ∧
      (s.updated st store id).store.Get parentId =
        some (.unit { Name := info.Name, Service := info.Service, Series := info.Series,
                      PublicAddress := info.PublicAddress,
                      PrivateAddress := info.PrivateAddress, MachineId := info.MachineId,
                      Ports := info.Ports, CharmURL := info.CharmURL,
                      Status := s.Status, StatusInfo := s.StatusInfo }) ∧
      ∀ other : EntityId, other ≠ parentId →
        (s.updated st store id).store.Get other = store.Get other) := by
  constructor
  · intro info h
    have hk0 := Store.Get_EntityId h
    have hk : (Info.machine ⟨info.Id, info.InstanceId, s.Status,
      s.StatusInfo⟩).EntityId = parentId := hk0
    simp only [backingStatus.updated, hkey, h]
    refine ⟨trivial, ?_, ?_⟩
    · rw [← hk]; exact Store.Get_Update_self _ _
    · intro other ho
      exact Store.Get_Update_other _ _ (by rw [hk]; exact ho)
  · intro info h
    have hk0 := Store.Get_EntityId h
    have hk : (Info.unit ⟨info.Name, info.Service, info.Series, info.PublicAddress,
      info.PrivateAddress, info.MachineId, info.Ports, info.CharmURL, s.Status,
      s.StatusInfo⟩).EntityId = parentId := hk0
    simp only [backingStatus.updated, hkey, h]
    refine ⟨trivial, ?_, ?_⟩
    · rw [← hk]; exact Store.Get_Update_self _ _
    · intro other ho
      exact Store.Get_Update_other _ _ (by rw [hk]; exact ho)

theorem status_updated_merges_into_parent_witness :
    backingEntityIdForGlobalKey "m#0" = ({ Kind := "machine", Id := "0" }, true) ∧
      exampleStore.Get { Kind := "machine", Id := "0" } =
        some (.machine ⟨"0", "i-123", "error", "boom"⟩) ∧
      (backingStatus.updated ⟨"started", ""⟩ exampleState exampleStore "m#0").result = .ok ∧
      (backingStatus.updated ⟨"started", ""⟩ exampleState exampleStore "m#0").store.Get
          { Kind := "machine", Id := "0" } =
        some (.machine { Id := "0", InstanceId := "i-123",
                         Status := "started", StatusInfo := "" }) ∧
      ∀ other : EntityId, other ≠ { Kind := "machine", Id := "0" } →
        (backingStatus.updated ⟨"started", ""⟩ exampleState exampleStore "m#0").store.Get
          other = exampleStore.Get other :=
  ⟨by decide, by decide,
    (status_updated_merges_into_parent ⟨"started", ""⟩ exampleState exampleStore "m#0"
      { Kind := "machine", Id := "0" } (by decide)).1 ⟨"0", "i-123", "error", "boom"⟩
      (by decide)⟩

/-- C4: when the global key resolves to a parent that has no entry in the store,
`backingStatus.updated` and `backingConstraints.updated` return no error and
leave the store exactly as it was. -/
theorem subsidiary_updated_without_parent (st : State) (store : Store) (id : String)
    (parentId : EntityId) (hkey : backingEntityIdForGlobalKey id = (parentId, true))
    (habsent : store.Get parentId = none) :
    (∀ s : backingStatus, s.updated st store id = ⟨store, [], .ok⟩) ∧
    (∀ s : backingConstraints, s.updated st store id = ⟨store, [], .ok⟩) := by
  constructor
  · intro s
    simp only [backingStatus.updated, hkey, habsent]
  · intro s
    simp only [backingConstraints.updated, hkey, habsent]

theorem subsidiary_updated_without_parent_witness :
    backingEntityIdForGlobalKey "u#mysql/0" = ({ Kind := "unit", Id := "mysql/0" }, true) ∧
      exampleStore.Get { Kind := "unit", Id := "mysql/0" } = none ∧
      (∀ s : backingStatus,
        s.updated exampleState exampleStore "u#mysql/0" = ⟨exampleStore, [], .ok⟩) ∧
      (∀ s : backingConstraints,
        s.updated exampleState exampleStore "u#mysql/0" = ⟨exampleStore, [], .ok⟩) :=
  ⟨by decide, by decide,
    subsidiary_updated_without_parent exampleState exampleStore "u#mysql/0"
      { Kind := "unit", Id := "mysql/0" } (by decide) (by decide)⟩

/-- C5, as stated, fails: the key `s#mysql` resolves to a service, the store has
no entry for it, and `backingStatus.updated` returns no error instead of
panicking. -/
theorem status_updated_service_key_no_panic :
    backingEntityIdForGlobalKey "s#mysql" = ({ Kind := "service", Id := "mysql" }, true) ∧
      backingStatus.updated ⟨"started", ""⟩ exampleState exampleStore "s#mysql" =
        ⟨exampleStore, [], .ok⟩ := by
  decide

/-- C5, amended: when the global key of a status document resolves to a parent
whose kind is neither machine nor unit, `backingStatus.updated` panics without
writing to the store if the store holds an entry for that parent, and returns no
error, the store unchanged, if it holds none. -/
theorem status_updated_unexpected_parent (s : backingStatus) (st : State) (store : Store)
    (id : String) (parentId : EntityId)
    (hkey : backingEntityIdForGlobalKey id = (parentId, true))
    (hm : parentId.Kind ≠ "machine") (hu : parentId.Kind ≠ "unit") :
    (∀ info : Info, store.Get parentId = some info →
      s.updated st store id = ⟨store, [], .panicked (.statusUnexpectedEntity id)⟩) ∧
    (store.Get parentId = none → s.updated st store id = ⟨store, [], .ok⟩) := by
  constructor
  · intro info h
    have hk := Store.Get_EntityId h
    cases info with
    | machine i => exact absurd (by rw [← hk]; rfl) hm
    | unit i => exact absurd (by rw [← hk]; rfl) hu
    | service i => simp only [backingStatus.updated, hkey, h]
    | relation i => simp only [backingStatus.updated, hkey, h]
    | annotation i => simp only [backingStatus.updated, hkey, h]
  · intro h
    simp only [backingStatus.updated, hkey, h]

theorem status_updated_unexpected_parent_witness :
    backingEntityIdForGlobalKey "s#wordpress" =
        ({ Kind := "service", Id := "wordpress" }, true) ∧
      exampleStore.Get { Kind := "service", Id := "wordpress" } =
        some (.service ⟨"wordpress", false, "cs:precise/wordpress-3", ⟨"mem=1G"⟩⟩) ∧
      backingStatus.updated ⟨"started", ""⟩ exampleState exampleStore "s#wordpress" =
        ⟨exampleStore, [], .panicked (.statusUnexpectedEntity "s#wordpress")⟩ :=
  ⟨by decide, by decide,
    (status_updated_unexpected_parent ⟨"started", ""⟩ exampleState exampleStore
      "s#wordpress" { Kind := "service", Id := "wordpress" } (by decide) (by decide)
      (by decide)).1 (.service ⟨"wordpress", false, "cs:precise/wordpress-3", ⟨"mem=1G"⟩⟩)
      (by decide)⟩

/-- C6: when the global key of a constraints document resolves to a service that
has an entry, `backingConstraints.updated` returns no error and replaces the
entry by a copy whose `Constraints` is the document's value and whose `Name`,
`Exposed` and `CharmURL` are unchanged, every other entry being untouched; when
it resolves to a machine or unit that has an entry, the store is left as it was
and no error is returned. -/
theorem constraints_updated_by_parent_kind (s : backingConstraints) (st : State)
    (store : Store) (id : String) (parentId : EntityId)
    (hkey : backingEntityIdForGlobalKey id = (parentId, true)) :
    (∀ info : ServiceInfo, store.Get parentId = some (.service info) →
      (s.updated st store id).result = .ok ∧
      (s.updated st store id).store.Get parentId =
        some (.service { Name := info.Name, Exposed := info.Exposed,
                         CharmURL := info.CharmURL, Constraints := s.value }) ∧
      ∀ other : EntityId, other ≠ parentId →
        (s.updated st store id).store.Get other = store.Get other) ∧
    (∀ info : MachineInfo, store.Get parentId = some (.machine info) →
      s.updated st store id = ⟨store, [], .ok⟩) ∧
    (∀ info : UnitInfo, store.Get parentId = some (.unit info) →
      s.updated st store id = ⟨store, [], .ok⟩) := by
  refine ⟨?_, ?_, ?_⟩
  · intro info h
    have hk0 := Store.Get_EntityId h
    have hk : (Info.service ⟨info.Name, info.Exposed, info.CharmURL,
      s.value⟩).EntityId = parentId := hk0
    simp only [backingConstraints.updated, hkey, h]
    refine ⟨trivial, ?_, ?_⟩
    · rw [← hk]; exact Store.Get_Update_self _ _
    · intro other ho
      exact Store.Get_Update_other _ _ (by rw [hk]; exact ho)
  · intro info h
    simp only [backingConstraints.updated, hkey, h]
  · intro info h
    simp only [backingConstraints.updated, hkey, h]

theorem constraints_updated_by_parent_kind_witness :
    backingEntityIdForGlobalKey "s#wordpress" =
        ({ Kind := "service", Id := "wordpress" }, true) ∧
      exampleStore.Get { Kind := "service", Id := "wordpress" } =
        some (.service ⟨"wordpress", false, "cs:precise/wordpress-3", ⟨"mem=1G"⟩⟩) ∧
      (backingConstraints.updated ⟨⟨"mem=4G"⟩⟩ exampleState exampleStore
        "s#wordpress").result = .ok ∧
      (backingConstraints.updated ⟨⟨"mem=4G"⟩⟩ exampleState exampleStore
          "s#wordpress").store.Get { Kind := "service", Id := "wordpress" } =
        some (.service { Name := "wordpress", Exposed := false,
                         CharmURL := "cs:precise/wordpress-3",
                         Constraints := ⟨"mem=4G"⟩ }) ∧
      ∀ other : EntityId, other ≠ { Kind := "service", Id := "wordpress" } →
        (backingConstraints.updated ⟨⟨"mem=4G"⟩⟩ exampleState exampleStore
          "s#wordpress").store.Get other = exampleStore.Get other :=
  ⟨by decide, by decide,
    (constraints_updated_by_parent_kind ⟨⟨"mem=4G"⟩⟩ exampleState exampleStore
      "s#wordpress" { Kind := "service", Id := "wordpress" } (by decide)).1
      ⟨"wordpress", false, "cs:precise/wordpress-3", ⟨"mem=1G"⟩⟩ (by decide)⟩

/-! ## Properties of the backing engine -/

/-- C7: for a change on a registered collection of machines, units, services or
relations whose single-document fetch reports not-found, `Changed` is the
handler's `removed`: it returns no error, the store afterwards has no entry for
the EntityId made of the kind and the event id, and every other entry is
unchanged. -/
theorem changed_not_found_removes (b : allWatcherStateBacking) (all : Store)
    (change : Change) (c : allWatcherStateCollection) (kind : String)
    (hreg : b.collectionByName.lookup change.C = some c)
    (hprimary : (c.infoSliceType, kind) ∈
      [(DocType.backingMachine, "machine"), (DocType.backingUnit, "unit"),
       (DocType.backingService, "service"), (DocType.backingRelation, "relation")])
    (hfetch : c.FindIdOne b.st change.Id = .error Error.ErrNotFound) :
    b.Changed all change = c.infoSliceType.new.removed b.st all change.Id ∧
    (b.Changed all change).result = .ok ∧
    (b.Changed all change).store.Get { Kind := kind, Id := change.Id } = none ∧
    ∀ other : EntityId, other ≠ { Kind := kind, Id := change.Id } →
      (b.Changed all change).store.Get other = all.Get other := by
  have e : b.Changed all change = c.infoSliceType.new.removed b.st all change.Id := by
    simp only [allWatcherStateBacking.Changed, hreg, hfetch, if_true]
  refine ⟨e, ?_⟩
  rw [e]
  simp only [List.mem_cons, Prod.mk.injEq, List.mem_singleton, List.mem_nil_iff,
    or_false] at hprimary
  rcases hprimary with ⟨ht, hk⟩ | ⟨ht, hk⟩ | ⟨ht, hk⟩ | ⟨ht, hk⟩ <;>
    subst hk <;> rw [ht] <;>
    exact ⟨rfl, Store.Get_Remove_self _ _, fun other ho => Store.Get_Remove_other _ ho⟩

theorem changed_not_found_removes_witness :
    (backingOf exampleState).collectionByName.lookup "machines" =
        some ⟨"machines", .backingMachine, false⟩ ∧
      (backingOf exampleState).Changed exampleStore ⟨"machines", "1"⟩ =
        (DocType.backingMachine).new.removed exampleState exampleStore "1" ∧
      ((backingOf exampleState).Changed exampleStore ⟨"machines", "1"⟩).result = .ok ∧
      ((backingOf exampleState).Changed exampleStore ⟨"machines", "1"⟩).store.Get
        { Kind := "machine", Id := "1" } = none ∧
      ∀ other : EntityId, other ≠ { Kind := "machine", Id := "1" } →
        ((backingOf exampleState).Changed exampleStore ⟨"machines", "1"⟩).store.Get other =
          exampleStore.Get other :=
  ⟨by decide,
    changed_not_found_removes (backingOf exampleState) exampleStore ⟨"machines", "1"⟩
      ⟨"machines", .backingMachine, false⟩ "machine" (by decide) (by decide) rfl⟩

/-- C8: for a change on a registered collection whose single-document fetch
fails with an error other than not-found, `Changed` returns that error, performs
no lookup and leaves the store unchanged. -/
theorem changed_fetch_error_propagates (b : allWatcherStateBacking) (all : Store)
    (change : Change) (c : allWatcherStateCollection) (err : Error)
    (hreg : b.collectionByName.lookup change.C = some c)
    (hfetch : c.FindIdOne b.st change.Id = .error err)
    (herr : err ≠ Error.ErrNotFound) :
    b.Changed all change = ⟨all, [], .error err⟩ := by
  simp only [allWatcherStateBacking.Changed, hreg, hfetch, herr, if_false]

theorem changed_fetch_error_propagates_witness :
    (backingOf brokenState).collectionByName.lookup "units" =
        some ⟨"units", .backingUnit, false⟩ ∧
      Error.errorf "EOF" ≠ Error.ErrNotFound ∧
      (backingOf brokenState).Changed exampleStore ⟨"units", "wordpress/0"⟩ =
        ⟨exampleStore, [], .error (.errorf "EOF")⟩ :=
  ⟨by decide, by decide,
    changed_fetch_error_propagates (backingOf brokenState) exampleStore
      ⟨"units", "wordpress/0"⟩ ⟨"units", .backingUnit, false⟩ (.errorf "EOF") (by decide) rfl
      (by decide)⟩

/-- C9: over a backing store seeded with machines `ms`, units `us` and services
`ss` (distinct ids within each collection, no relation or annotation, the
status lookup succeeding for every seeded machine and unit and the constraints
lookup for every seeded service), `GetAll` on an empty store, in whatever order
it visits the collections, returns no error and leaves a store of exactly
`ms.length + us.length + ss.length` entries: one per seeded document, a machine
or unit entry carrying the looked-up status and a service entry the looked-up
constraints. The documents of the status and constraints collections play no
part, and nothing is assumed of the lookups for other keys. -/
theorem getAll_populates_empty_store (st : State) (b : allWatcherStateBacking)
    (order : List allWatcherStateCollection)
    (ms : List backingMachine) (us : List backingUnit) (ss : List backingService)
    (status : String → backingStatus) (cons : String → Constraints)
    (hb : newAllWatcherStateBacking st = .ok b) (hord : b.visits order)
    (hm : st.machines.All = .ok ms) (hu : st.units.All = .ok us)
    (hs : st.services.All = .ok ss)
    (hr : st.relations.All = .ok []) (ha : st.annotations.All = .ok [])
    (hmd : (ms.map (fun m => m.Id)).Nodup) (hud : (us.map (fun u => u.Name)).Nodup)
    (hsd : (ss.map (fun svc => svc.Name)).Nodup)
    (hgs : ∀ m ∈ ms,
      st.getStatus (machineGlobalKey m.Id) = .ok (status (machineGlobalKey m.Id)))
    (hgu : ∀ u ∈ us,
      st.getStatus (unitGlobalKey u.Name) = .ok (status (unitGlobalKey u.Name)))
    (hrc : ∀ svc ∈ ss,
      st.readConstraints (serviceGlobalKey svc.Name) =
        .ok (cons (serviceGlobalKey svc.Name))) :
    (b.GetAll order Store.empty).result = .ok ∧
    (b.GetAll order Store.empty).store.size = ms.length + us.length + ss.length ∧
    (∀ m ∈ ms, (b.GetAll order Store.empty).store.Get { Kind := "machine", Id := m.Id } =
      some (.machine { Id := m.Id, InstanceId := m.InstanceId,
                       Status := (status (machineGlobalKey m.Id)).Status,
                       StatusInfo := (status (machineGlobalKey m.Id)).StatusInfo })) ∧
    (∀ u ∈ us, (b.GetAll order Store.empty).store.Get { Kind := "unit", Id := u.Name } =
      some (.unit { Name := u.Name, Service := u.Service, Series := u.Series,
                    PublicAddress := u.PublicAddress, PrivateAddress := u.PrivateAddress,
                    MachineId := u.MachineId, Ports := u.Ports,
                    CharmURL := u.CharmURL.getD "",
                    Status := (status (unitGlobalKey u.Name)).Status,
                    StatusInfo := (status (unitGlobalKey u.Name)).StatusInfo })) ∧
    (∀ svc ∈ ss,
      (b.GetAll order Store.empty).store.Get { Kind := "service", Id := svc.Name } =
      some (.service { Name := svc.Name, Exposed := svc.Exposed, CharmURL := svc.CharmURL,
                       Constraints := cons (serviceGlobalKey svc.Name) })) := by
  obtain ⟨hst, hcs⟩ := newAllWatcherStateBacking_ok hb
  have hperm : order.Perm (collections st) := by
    have := hord
    rwa [allWatcherStateBacking.visits, hcs] at this
  have hflat : (collections st).flatMap (fun c => c.fetched b.st) =
      ms.map .machine ++ (us.map .unit ++ ss.map .service) := by
    rw [hst]
    simp [collections, allWatcherStateCollection.fetched, allWatcherStateCollection.FindAll,
      hm, hu, hs, hr, ha, Except.map]
  have hp2 : (order.flatMap (fun c => c.fetched b.st)).Perm
      (ms.map .machine ++ (us.map .unit ++ ss.map .service)) := by
    rw [← hflat]
    exact List.Perm.flatMap_right _ hperm
  have hmem : ∀ d, d ∈ order.flatMap (fun c => c.fetched b.st) ↔
      (∃ m ∈ ms, d = .machine m) ∨ (∃ u ∈ us, d = .unit u) ∨
        (∃ svc ∈ ss, d = .service svc) := by
    intro d
    rw [hp2.mem_iff]
    simp only [List.mem_append, List.mem_map]
    constructor
    · rintro (⟨m, hm, rfl⟩ | ⟨u, hu, rfl⟩ | ⟨s, hs, rfl⟩)
      · exact Or.inl ⟨m, hm, rfl⟩
      · exact Or.inr (Or.inl ⟨u, hu, rfl⟩)
      · exact Or.inr (Or.inr ⟨s, hs, rfl⟩)
    · rintro (⟨m, hm, rfl⟩ | ⟨u, hu, rfl⟩ | ⟨s, hs, rfl⟩)
      · exact Or.inl ⟨m, hm, rfl⟩
      · exact Or.inr (Or.inl ⟨u, hu, rfl⟩)
      · exact Or.inr (Or.inr ⟨s, hs, rfl⟩)
  have hfetch : ∀ c ∈ order, c.subsidiary = false →
      ∃ infos, c.FindAll b.st = .ok infos := by
    intro c hc hsub
    have hc2 := hperm.mem_iff.mp hc
    rw [hst]
    simp only [collections, List.mem_cons, List.mem_singleton, List.mem_nil_iff,
      or_false] at hc2
    rcases hc2 with rfl | rfl | rfl | rfl | rfl | rfl | rfl <;>
      simp [allWatcherStateCollection.FindAll, hm, hu, hs, hr, ha, Except.map] at hsub ⊢
  have hstep : ∀ d ∈ order.flatMap (fun c => c.fetched b.st), ∀ a : Store,
      a.Get (d.firstInfo status cons).EntityId = none →
      ∃ i ls, d.mongoId = .ok i ∧
        d.updated b.st a i = ⟨a.Update (d.firstInfo status cons), ls, .ok⟩ := by
    intro d hd a habs
    rw [hst]
    rcases (hmem d).mp hd with ⟨m, hmm, rfl⟩ | ⟨u, hmu, rfl⟩ | ⟨s, hms, rfl⟩
    · refine ⟨m.Id, [Lookup.getStatus (machineGlobalKey m.Id)], rfl, ?_⟩
      have hg := hgs m hmm
      simp only [backingEntityDoc.firstInfo, Info.EntityId] at habs
      simp only [backingEntityDoc.updated, backingMachine.updated, Info.EntityId, habs,
        hg, backingEntityDoc.firstInfo]
    · refine ⟨u.Name, [Lookup.getStatus (unitGlobalKey u.Name)], rfl, ?_⟩
      have hg := hgu u hmu
      simp only [backingEntityDoc.firstInfo, Info.EntityId] at habs
      cases hc : u.CharmURL <;>
        simp only [backingEntityDoc.updated, backingUnit.updated, Info.EntityId, habs,
          hg, backingEntityDoc.firstInfo, hc, Option.getD]
    · refine ⟨s.Name, [Lookup.readConstraints (serviceGlobalKey s.Name)], rfl, ?_⟩
      have hg := hrc s hms
      simp only [backingEntityDoc.firstInfo, Info.EntityId] at habs
      simp only [backingEntityDoc.updated, backingService.updated, Info.EntityId, habs,
        hg, backingEntityDoc.firstInfo]
  have hnd : ((order.flatMap (fun c => c.fetched b.st)).map
      (fun d => (d.firstInfo status cons).EntityId)).Nodup := by
    rw [(hp2.map _).nodup_iff]
    simp only [List.map_append, List.map_map]
    have e1 : ((fun d => (backingEntityDoc.firstInfo status cons d).EntityId) ∘
        backingEntityDoc.machine) = (fun i => EntityId.mk "machine" i) ∘ (fun m => m.Id) := rfl
    have e2 : ((fun d => (backingEntityDoc.firstInfo status cons d).EntityId) ∘
        backingEntityDoc.unit) = (fun i => EntityId.mk "unit" i) ∘ (fun u => u.Name) := rfl
    have e3 : ((fun d => (backingEntityDoc.firstInfo status cons d).EntityId) ∘
        backingEntityDoc.service) =
          (fun i => EntityId.mk "service" i) ∘ (fun svc => svc.Name) := rfl
    rw [e1, e2, e3, ← List.map_map, ← List.map_map, ← List.map_map]
    have inj : ∀ k : String, Function.Injective (fun i => EntityId.mk k i) := by
      intro k x y hxy
      simpa using hxy
    refine List.nodup_append.mpr ⟨hmd.map (inj _), ?_, ?_⟩
    · refine List.nodup_append.mpr ⟨hud.map (inj _), hsd.map (inj _), ?_⟩
      intro x hx hy
      obtain ⟨i, -, rfl⟩ := List.mem_map.mp hx
      obtain ⟨j, -, hj⟩ := List.mem_map.mp hy
      simp at hj
    · intro x hx hy
      obtain ⟨i, -, rfl⟩ := List.mem_map.mp hx
      rcases List.mem_append.mp hy with hy | hy
      · obtain ⟨j, -, hj⟩ := List.mem_map.mp hy
        simp at hj
      · obtain ⟨j, -, hj⟩ := List.mem_map.mp hy
        simp at hj
  obtain ⟨g1, g2, g3, -⟩ := GetAll_fresh b (backingEntityDoc.firstInfo status cons) order
    Store.empty hfetch hstep hnd (fun _ _ => rfl)
  refine ⟨g1, ?_, ?_, ?_, ?_⟩
  · rw [g2, hp2.length_eq]
    simp [Store.size, Store.empty]
    omega
  · intro m hm
    exact g3 (.machine m) ((hmem _).mpr (Or.inl ⟨m, hm, rfl⟩))
  · intro u hu
    exact g3 (.unit u) ((hmem _).mpr (Or.inr (Or.inl ⟨u, hu, rfl⟩)))
  · intro s hs
    exact g3 (.service s) ((hmem _).mpr (Or.inr (Or.inr ⟨s, hs, rfl⟩)))

theorem getAll_populates_empty_store_witness :
    newAllWatcherStateBacking seededState = .ok (backingOf seededState) ∧
      (backingOf seededState).visits (collections seededState).reverse ∧
      seededState.getStatus "m#7" = .error (.errorf "status not found") ∧
      ((backingOf seededState).GetAll (collections seededState).reverse
        Store.empty).result = .ok ∧
      ((backingOf seededState).GetAll (collections seededState).reverse
        Store.empty).store.size = 2 + 3 + 2 ∧
      ((backingOf seededState).GetAll (collections seededState).reverse
          Store.empty).store.Get { Kind := "machine", Id := "0" } =
        some (.machine { Id := "0", InstanceId := "i-123", Status := "started",
                         StatusInfo := "" }) ∧
      ((backingOf seededState).GetAll (collections seededState).reverse
          Store.empty).store.Get { Kind := "unit", Id := "mysql/0" } =
        some (.unit { Name := "mysql/0", Service := "mysql", Series := "precise",
                      PublicAddress := "", PrivateAddress := "", MachineId := "1",
                      Ports := [⟨"tcp", 3306⟩], CharmURL := "",
                      Status := "error", StatusInfo := "hook failed" }) ∧
      ((backingOf seededState).GetAll (collections seededState).reverse
          Store.empty).store.Get { Kind := "service", Id := "mysql" } =
        some (.service { Name := "mysql", Exposed := false,
                         CharmURL := "cs:precise/mysql-1",
                         Constraints := ⟨"mem=4G"⟩ }) :=
  have h := getAll_populates_empty_store seededState (backingOf seededState)
    (collections seededState).reverse
    [⟨"0", "i-123"⟩, ⟨"1", "i-124"⟩]
    [⟨"wordpress/0", "wordpress", "precise", "", "", "0", [], none⟩,
     ⟨"wordpress/1", "wordpress", "precise", "", "", "1", [],
       some "cs:precise/wordpress-3"⟩,
     ⟨"mysql/0", "mysql", "precise", "", "", "1", [⟨"tcp", 3306⟩], none⟩]
    [⟨"wordpress", true, "cs:precise/wordpress-3"⟩, ⟨"mysql", false, "cs:precise/mysql-1"⟩]
    seededStatus seededConstraints
    rfl (List.reverse_perm _) rfl rfl rfl rfl rfl (by decide) (by decide) (by decide)
    (by
      intro m hm
      simp only [List.mem_cons, List.mem_singleton, List.not_mem_nil, or_false] at hm
      rcases hm with rfl | rfl <;> rfl)
    (by
      intro u hu
      simp only [List.mem_cons, List.mem_singleton, List.not_mem_nil, or_false] at hu
      rcases hu with rfl | rfl | rfl <;> rfl)
    (by
      intro svc hsvc
      simp only [List.mem_cons, List.mem_singleton, List.not_mem_nil, or_false] at hsvc
      rcases hsvc with rfl | rfl <;> rfl)
  ⟨rfl, List.reverse_perm _, rfl, h.1, h.2.1,
    h.2.2.1 ⟨"0", "i-123"⟩ (by simp),
    h.2.2.2.1 ⟨"mysql/0", "mysql", "precise", "", "", "1", [⟨"tcp", 3306⟩], none⟩ (by simp),
    h.2.2.2.2 ⟨"mysql", false, "cs:precise/mysql-1"⟩ (by simp)⟩

/-- C10 fails on the code: the state lists machine `0` and its status lookup
fails, so `backingMachine.updated` returns the lookup error; `GetAll` discards
that value, returns no error and leaves the machine out of the store. -/
theorem getAll_discards_lookup_error :
    newAllWatcherStateBacking brokenState = .ok (backingOf brokenState) ∧
      (backingOf brokenState).visits (collections brokenState) ∧
      backingMachine.updated ⟨"0", "i-123"⟩ brokenState Store.empty "0" =
        ⟨Store.empty, [Lookup.getStatus "m#0"], .error (.errorf "EOF")⟩ ∧
      (backingOf brokenState).GetAll (collections brokenState) Store.empty =
        ⟨Store.empty, [Lookup.getStatus "m#0"], .ok⟩ :=
  ⟨rfl, List.Perm.refl _, by decide, by decide⟩

/-! ## Properties of global-key parsing -/

theorem globalKey_parts (c : Char) (hc : c.utf8Size = 1) (cs : List Char) :
    (String.mk (c :: '#' :: cs)).utf8ByteSize = String.utf8Len cs + 2 ∧
    (String.mk (c :: '#' :: cs)).get ⟨1⟩ = '#' ∧
    (String.mk (c :: '#' :: cs)).get ⟨0⟩ = c ∧
    (String.mk (c :: '#' :: cs)).extract ⟨2⟩ (String.mk (c :: '#' :: cs)).endPos =
      String.mk cs := by
  have h2 : ('#' : Char).utf8Size = 1 := by decide
  refine ⟨?_, ?_, ?_, ?_⟩
  · simp [hc, h2]
  · have := String.get_of_valid [c] ('#' :: cs)
    simpa [hc] using this
  · have := String.get_of_valid [] (c :: '#' :: cs)
    simpa using this
  · have := String.extract_of_valid [c, '#'] cs []
    have e : (String.mk (c :: '#' :: cs)).endPos = ⟨2 + String.utf8Len cs⟩ := by
      simp [hc, h2, String.Pos.ext_iff]
      omega
    rw [e]
    simpa [hc, h2] using this

theorem utf8Len_pos_of_ne_nil {cs : List Char} (h : cs ≠ []) : 0 < String.utf8Len cs := by
  rcases Nat.eq_zero_or_pos (String.utf8Len cs) with h0 | h0
  · exact absurd (String.utf8Len_eq_zero.mp h0) h
  · exact h0

theorem globalKey_append (k : String) (id : String) :
    k ++ id = String.mk (k.data ++ id.data) := by
  apply String.ext; simp

theorem backingEntityIdForGlobalKey_machine (id : String) (h : id ≠ "") :
    backingEntityIdForGlobalKey ("m#" ++ id) = ({ Kind := "machine", Id := id }, true) := by
  have hd : id.data ≠ [] := fun e => h (String.ext e)
  have hk : "m#" ++ id = String.mk ('m' :: '#' :: id.data) := globalKey_append "m#" id
  obtain ⟨p1, p2, p3, p4⟩ := globalKey_parts 'm' (by decide) id.data
  have hpos := utf8Len_pos_of_ne_nil hd
  rw [hk]
  unfold backingEntityIdForGlobalKey
  rw [p1, p2, p3, p4]
  simp [Info.EntityId]
  omega

theorem backingEntityIdForGlobalKey_unit (id : String) (h : id ≠ "") :
    backingEntityIdForGlobalKey ("u#" ++ id) = ({ Kind := "unit", Id := id }, true) := by
  have hd : id.data ≠ [] := fun e => h (String.ext e)
  have hk : "u#" ++ id = String.mk ('u' :: '#' :: id.data) := globalKey_append "u#" id
  obtain ⟨p1, p2, p3, p4⟩ := globalKey_parts 'u' (by decide) id.data
  have hpos := utf8Len_pos_of_ne_nil hd
  rw [hk]
  unfold backingEntityIdForGlobalKey
  rw [p1, p2, p3, p4]
  simp [Info.EntityId]
  omega

theorem backingEntityIdForGlobalKey_service (id : String) (h : id ≠ "") :
    backingEntityIdForGlobalKey ("s#" ++ id) = ({ Kind := "service", Id := id }, true) := by
  have hd : id.data ≠ [] := fun e => h (String.ext e)
  have hk : "s#" ++ id = String.mk ('s' :: '#' :: id.data) := globalKey_append "s#" id
  obtain ⟨p1, p2, p3, p4⟩ := globalKey_parts 's' (by decide) id.data
  have hpos := utf8Len_pos_of_ne_nil hd
  rw [hk]
  unfold backingEntityIdForGlobalKey
  rw [p1, p2, p3, p4]
  simp [Info.EntityId]
  omega

/-- C13: for every non-empty `id`, `backingEntityIdForGlobalKey` resolves
`m#<id>`, `u#<id>` and `s#<id>` to the EntityId of machine, unit and service
`id` respectively. -/
theorem globalKey_resolves (id : String) (h : id ≠ "") :
    backingEntityIdForGlobalKey ("m#" ++ id) = ({ Kind := "machine", Id := id }, true) ∧
    backingEntityIdForGlobalKey ("u#" ++ id) = ({ Kind := "unit", Id := id }, true) ∧
    backingEntityIdForGlobalKey ("s#" ++ id) = ({ Kind := "service", Id := id }, true) :=
  ⟨backingEntityIdForGlobalKey_machine id h, backingEntityIdForGlobalKey_unit id h,
    backingEntityIdForGlobalKey_service id h⟩

theorem globalKey_resolves_witness :
    "wordpress/0" ≠ "" ∧
      backingEntityIdForGlobalKey ("m#" ++ "wordpress/0") =
        ({ Kind := "machine", Id := "wordpress/0" }, true) ∧
      backingEntityIdForGlobalKey ("u#" ++ "wordpress/0") =
        ({ Kind := "unit", Id := "wordpress/0" }, true) ∧
      backingEntityIdForGlobalKey ("s#" ++ "wordpress/0") =
        ({ Kind := "service", Id := "wordpress/0" }, true) :=
  ⟨by decide, globalKey_resolves "wordpress/0" (by decide)⟩

theorem Store.Remove_Remove (a : Store) (id : EntityId) :
    (a.Remove id).Remove id = a.Remove id := by
  simp [Store.Remove, List.filter_filter]

theorem Store.Update_Update (a : Store) (info1 info2 : Info)
    (h : info1.EntityId = info2.EntityId) :
    (a.Update info1).Update info2 = a.Update info2 := by
  simp [Store.Update, List.filter_filter, h]

/-! ## Removal -/

/-- C15: `removed` of a machine, unit, service or relation document deletes the
EntityId made of the kind and the given id, whether or not the store holds it,
and returns no error; calling it a second time with the same id leaves the store
as the first call left it, the EntityId being absent. -/
theorem primary_removed_idempotent (st : State) (store : Store) (id : String) :
    (∀ m : backingMachine,
      m.removed st store id = ⟨store.Remove { Kind := "machine", Id := id }, [], .ok⟩ ∧
      (m.removed st store id).store.Get { Kind := "machine", Id := id } = none ∧
      (m.removed st (m.removed st store id).store id).store = (m.removed st store id).store) ∧
    (∀ u : backingUnit,
      u.removed st store id = ⟨store.Remove { Kind := "unit", Id := id }, [], .ok⟩ ∧
      (u.removed st store id).store.Get { Kind := "unit", Id := id } = none ∧
      (u.removed st (u.removed st store id).store id).store = (u.removed st store id).store) ∧
    (∀ svc : backingService,
      svc.removed st store id = ⟨store.Remove { Kind := "service", Id := id }, [], .ok⟩ ∧
      (svc.removed st store id).store.Get { Kind := "service", Id := id } = none ∧
      (svc.removed st (svc.removed st store id).store id).store =
        (svc.removed st store id).store) ∧
    (∀ r : backingRelation,
      r.removed st store id = ⟨store.Remove { Kind := "relation", Id := id }, [], .ok⟩ ∧
      (r.removed st store id).store.Get { Kind := "relation", Id := id } = none ∧
      (r.removed st (r.removed st store id).store id).store = (r.removed st store id).store) :=
  ⟨fun _ => ⟨rfl, Store.Get_Remove_self _ _, Store.Remove_Remove _ _⟩,
   fun _ => ⟨rfl, Store.Get_Remove_self _ _, Store.Remove_Remove _ _⟩,
   fun _ => ⟨rfl, Store.Get_Remove_self _ _, Store.Remove_Remove _ _⟩,
   fun _ => ⟨rfl, Store.Get_Remove_self _ _, Store.Remove_Remove _ _⟩⟩

/-- C16: `removed` of a status or constraints document returns no error and
leaves the store unchanged, whatever the store and the id. -/
theorem subsidiary_removed_noop (st : State) (store : Store) (id : String) :
    (∀ s : backingStatus, s.removed st store id = ⟨store, [], .ok⟩) ∧
    (∀ s : backingConstraints, s.removed st store id = ⟨store, [], .ok⟩) :=
  ⟨fun _ => rfl, fun _ => rfl⟩

/-- C18: `backingRelation.updated` performs no lookup, returns no error and
stores under the relation's key a RelationInfo whose `Key` is the document's and
whose `Endpoints` has the length and order of the document's endpoints, each
with that endpoint's `ServiceName` and `Relation`; the Info stored is the same
whatever the store held before. -/
theorem relation_updated_from_document (r : backingRelation) (st : State) (store : Store)
    (id : String) :
    (r.updated st store id).result = .ok ∧
    (r.updated st store id).lookups = [] ∧
    (∃ info : RelationInfo,
      (r.updated st store id).store.Get { Kind := "relation", Id := r.Key } =
        some (.relation info) ∧
      info.Key = r.Key ∧
      info.Endpoints.length = r.Endpoints.length ∧
      ∀ (i : Nat) (h1 : i < info.Endpoints.length) (h2 : i < r.Endpoints.length),
        (info.Endpoints.get ⟨i, h1⟩).ServiceName = (r.Endpoints.get ⟨i, h2⟩).ServiceName ∧
        (info.Endpoints.get ⟨i, h1⟩).Relation = (r.Endpoints.get ⟨i, h2⟩).Relation) ∧
    ∀ (st2 : State) (store2 : Store) (id2 : String),
      (r.updated st2 store2 id2).store.Get { Kind := "relation", Id := r.Key } =
        (r.updated st store id).store.Get { Kind := "relation", Id := r.Key } := by
  have hg : ∀ (st : State) (store : Store) (id : String),
      (r.updated st store id).store.Get { Kind := "relation", Id := r.Key } =
        some (.relation ⟨r.Key,
          r.Endpoints.map (fun ep => ⟨ep.ServiceName, ep.Relation⟩)⟩) :=
    fun _ store _ => Store.Get_Update_self store _
  refine ⟨rfl, rfl, ⟨_, hg st store id, rfl, by simp, ?_⟩, ?_⟩
  · intro i h1 h2
    simp
  · intro st2 store2 id2
    rw [hg, hg]

/-- C19: `backingAnnotation.removed` panics exactly when the tag lookup for the
given global key fails, and then leaves the store untouched; when the lookup
yields a tag it returns no error and removes the annotation EntityId of that
tag, every other entry being kept. -/
theorem annotation_removed_by_tag (a : backingAnnotation) (st : State) (store : Store)
    (id : String) :
    ((∃ p, (a.removed st store id).result = .panicked p) ↔ st.tagForGlobalKey id = none) ∧
    (st.tagForGlobalKey id = none →
      a.removed st store id = ⟨store, [], .panicked (.unknownGlobalKey id)⟩) ∧
    (∀ tag : String, st.tagForGlobalKey id = some tag →
      a.removed st store id = ⟨store.Remove { Kind := "annotation", Id := tag }, [], .ok⟩ ∧
      (a.removed st store id).store.Get { Kind := "annotation", Id := tag } = none ∧
      ∀ other : EntityId, other ≠ { Kind := "annotation", Id := tag } →
        (a.removed st store id).store.Get other = store.Get other) := by
  refine ⟨?_, ?_, ?_⟩
  · cases h : st.tagForGlobalKey id <;> simp [ backingAnnotation.removed, h]
  · intro h
    simp [ backingAnnotation.removed, h]
  · intro tag h
    have e : a.removed st store id =
        ⟨store.Remove { Kind := "annotation", Id := tag }, [], .ok⟩ := by
      simp [ backingAnnotation.removed, h]
    rw [e]
    exact ⟨rfl, Store.Get_Remove_self _ _, fun other ho => Store.Get_Remove_other _ ho⟩

theorem annotation_removed_by_tag_witness :
    exampleState.tagForGlobalKey "m#0" = some "machine-0" ∧
      backingAnnotation.removed ⟨"", "", []⟩ exampleState exampleStore "m#0" =
        ⟨exampleStore.Remove { Kind := "annotation", Id := "machine-0" }, [], .ok⟩ ∧
      ( backingAnnotation.removed ⟨"", "", []⟩ exampleState exampleStore "m#0").store.Get
        { Kind := "annotation", Id := "machine-0" } = none ∧
      ∀ other : EntityId, other ≠ { Kind := "annotation", Id := "machine-0" } →
        ( backingAnnotation.removed ⟨"", "", []⟩ exampleState exampleStore "m#0").store.Get
          other = exampleStore.Get other :=
  ⟨by decide,
    (annotation_removed_by_tag ⟨"", "", []⟩ exampleState exampleStore "m#0").2.2
      "machine-0" (by decide)⟩

/-! ## Primary and status updates to one entity -/

/-- C20: when the store holds a MachineInfo for machine `id`, applying
`backingMachine.updated` of a document with that id and then
`backingStatus.updated` with key `m#<id>` leaves the same store as applying them
in the other order, and both calls return no error either way; likewise for a
unit and key `u#<id>`. -/
theorem primary_and_status_updates_commute (st : State) (store : Store) (id docId : String)
    (s : backingStatus) :
    (∀ (d : backingMachine) (old : MachineInfo), d.Id = id →
      store.Get { Kind := "machine", Id := id } = some (.machine old) →
      (s.updated st (d.updated st store docId).store ("m#" ++ id)).store =
        (d.updated st (s.updated st store ("m#" ++ id)).store docId).store ∧
      (s.updated st (d.updated st store docId).store ("m#" ++ id)).result = .ok ∧
      (d.updated st (s.updated st store ("m#" ++ id)).store docId).result = .ok) ∧
    (∀ (u : backingUnit) (old : UnitInfo), u.Name = id →
      store.Get { Kind := "unit", Id := id } = some (.unit old) →
      (s.updated st (u.updated st store docId).store ("u#" ++ id)).store =
        (u.updated st (s.updated st store ("u#" ++ id)).store docId).store ∧
      (s.updated st (u.updated st store docId).store ("u#" ++ id)).result = .ok ∧
      (u.updated st (s.updated st store ("u#" ++ id)).store docId).result = .ok) := by
  constructor
  rotate_left
  · intro u old hd hold
    subst hd
    have hoid : old.Name = u.Name := by
      have := Store.Get_EntityId hold
      simpa [Info.EntityId] using this
    by_cases hid : u.Name = ""
    · have hk : backingEntityIdForGlobalKey ("u#" ++ u.Name) =
          ({ Kind := "", Id := "" }, false) := by
        rw [hid]; decide
      simp only [backingStatus.updated, hk]
      cases hc : u.CharmURL <;>
        simp only [backingUnit.updated, Info.EntityId, hold, hc] <;>
        exact ⟨trivial, trivial, trivial⟩
    · have hk := backingEntityIdForGlobalKey_unit u.Name hid
      have h1 : u.updated st store docId =
          ⟨store.Update (.unit ⟨u.Name, u.Service, u.Series, u.PublicAddress,
            u.PrivateAddress, u.MachineId, u.Ports, u.CharmURL.getD "", old.Status,
            old.StatusInfo⟩), [], .ok⟩ := by
        cases hc : u.CharmURL <;>
          simp only [backingUnit.updated, Info.EntityId, hold, hc, Option.getD]
      have g1 := Store.Get_Update_self store (.unit ⟨u.Name, u.Service, u.Series,
        u.PublicAddress, u.PrivateAddress, u.MachineId, u.Ports, u.CharmURL.getD "",
        old.Status, old.StatusInfo⟩)
      have h2 : s.updated st store ("u#" ++ u.Name) =
          ⟨store.Update (.unit ⟨old.Name, old.Service, old.Series, old.PublicAddress,
            old.PrivateAddress, old.MachineId, old.Ports, old.CharmURL, s.Status,
            s.StatusInfo⟩), [], .ok⟩ := by
        simp only [backingStatus.updated, hk, hold]
      have g2 : (store.Update (.unit ⟨old.Name, old.Service, old.Series,
          old.PublicAddress, old.PrivateAddress, old.MachineId, old.Ports, old.CharmURL,
          s.Status, s.StatusInfo⟩)).Get { Kind := "unit", Id := u.Name } =
          some (.unit ⟨old.Name, old.Service, old.Series,
            old.PublicAddress, old.PrivateAddress, old.MachineId, old.Ports, old.CharmURL,
            s.Status, s.StatusInfo⟩) := by
        rw [← hoid]
        exact Store.Get_Update_self store _
      simp only [Info.EntityId] at g1
      rw [h1, h2]
      have e1 : s.updated st (store.Update (.unit ⟨u.Name, u.Service, u.Series,
          u.PublicAddress, u.PrivateAddress, u.MachineId, u.Ports, u.CharmURL.getD "",
          old.Status, old.StatusInfo⟩)) ("u#" ++ u.Name) =
          ⟨(store.Update (.unit ⟨u.Name, u.Service, u.Series,
            u.PublicAddress, u.PrivateAddress, u.MachineId, u.Ports, u.CharmURL.getD "",
            old.Status, old.StatusInfo⟩)).Update (.unit ⟨u.Name, u.Service, u.Series,
            u.PublicAddress, u.PrivateAddress, u.MachineId, u.Ports, u.CharmURL.getD "",
            s.Status, s.StatusInfo⟩), [], .ok⟩ := by
        simp only [backingStatus.updated, hk, g1]
      have e2 : u.updated st (store.Update (.unit ⟨old.Name, old.Service, old.Series,
          old.PublicAddress, old.PrivateAddress, old.MachineId, old.Ports, old.CharmURL,
          s.Status, s.StatusInfo⟩)) docId =
          ⟨(store.Update (.unit ⟨old.Name, old.Service, old.Series,
            old.PublicAddress, old.PrivateAddress, old.MachineId, old.Ports, old.CharmURL,
            s.Status, s.StatusInfo⟩)).Update (.unit ⟨u.Name, u.Service, u.Series,
            u.PublicAddress, u.PrivateAddress, u.MachineId, u.Ports, u.CharmURL.getD "",
            s.Status, s.StatusInfo⟩), [], .ok⟩ := by
        cases hc : u.CharmURL <;>
          simp only [backingUnit.updated, Info.EntityId, g2, hc, Option.getD]
      rw [e1, e2]
      refine ⟨?_, rfl, rfl⟩
      show Store.Update _ _ = Store.Update _ _
      rw [Store.Update_Update _ _ _ (by simp [Info.EntityId]),
        Store.Update_Update _ _ _ (by simp [Info.EntityId, hoid])]
  intro d old hd hold
  subst hd
  by_cases hid : d.Id = ""
  · have hk : backingEntityIdForGlobalKey ("m#" ++ d.Id) = ({ Kind := "", Id := "" }, false) := by
      rw [hid]; decide
    simp only [backingStatus.updated, hk]
    simp only [backingMachine.updated, Info.EntityId, hold]
    exact ⟨trivial, trivial, trivial⟩
  · have hk := backingEntityIdForGlobalKey_machine d.Id hid
    have h1 : d.updated st store docId =
        ⟨store.Update (.machine ⟨d.Id, d.InstanceId, old.Status, old.StatusInfo⟩), [], .ok⟩ := by
      simp only [backingMachine.updated, Info.EntityId, hold]
    have g1 : (store.Update (.machine ⟨d.Id, d.InstanceId, old.Status, old.StatusInfo⟩)).Get
        { Kind := "machine", Id := d.Id } =
          some (.machine ⟨d.Id, d.InstanceId, old.Status, old.StatusInfo⟩) :=
      Store.Get_Update_self store _
    have h2 : s.updated st store ("m#" ++ d.Id) =
        ⟨store.Update (.machine ⟨old.Id, old.InstanceId, s.Status, s.StatusInfo⟩), [], .ok⟩ := by
      simp only [backingStatus.updated, hk, hold]
    have hoid : old.Id = d.Id := by
      have := Store.Get_EntityId hold
      simpa [Info.EntityId] using this
    have g2 : (store.Update (.machine ⟨old.Id, old.InstanceId, s.Status, s.StatusInfo⟩)).Get
        { Kind := "machine", Id := d.Id } =
          some (.machine ⟨old.Id, old.InstanceId, s.Status, s.StatusInfo⟩) := by
      have := Store.Get_Update_self store
        (.machine ⟨old.Id, old.InstanceId, s.Status, s.StatusInfo⟩)
      simpa [Info.EntityId, hoid] using this
    rw [h1, h2]
    simp only [backingStatus.updated, hk, g1, backingMachine.updated, Info.EntityId, g2]
    refine ⟨?_, trivial, trivial⟩
    rw [Store.Update_Update _ _ _ (by simp [Info.EntityId]),
      Store.Update_Update _ _ _ (by simp [Info.EntityId, hoid])]

theorem primary_and_status_updates_commute_witness :
    exampleStore.Get { Kind := "machine", Id := "0" } =
        some (.machine ⟨"0", "i-123", "error", "boom"⟩) ∧
      (backingStatus.updated ⟨"started", ""⟩ exampleState
          (backingMachine.updated ⟨"0", "i-456"⟩ exampleState exampleStore "0").store
          ("m#" ++ "0")).store =
        (backingMachine.updated ⟨"0", "i-456"⟩ exampleState
          (backingStatus.updated ⟨"started", ""⟩ exampleState exampleStore
            ("m#" ++ "0")).store "0").store ∧
      (backingStatus.updated ⟨"started", ""⟩ exampleState
          (backingMachine.updated ⟨"0", "i-456"⟩ exampleState exampleStore "0").store
          ("m#" ++ "0")).result = .ok ∧
      (backingMachine.updated ⟨"0", "i-456"⟩ exampleState
          (backingStatus.updated ⟨"started", ""⟩ exampleState exampleStore
            ("m#" ++ "0")).store "0").result = .ok :=
  ⟨by decide,
    (primary_and_status_updates_commute exampleState exampleStore "0" "0"
      ⟨"started", ""⟩).1 ⟨"0", "i-456"⟩ ⟨"0", "i-123", "error", "boom"⟩ rfl (by decide)⟩

/-! ## Registry construction -/

theorem populate_ok_iff (cs : List allWatcherStateCollection) :
    ∀ b0 : allWatcherStateBacking,
      (∃ b, populate b0 cs = .ok b) ↔
        (∀ c ∈ cs, (∀ p ∈ b0.collectionByType, c.infoSliceType ≠ p.1) ∧
          (∀ p ∈ b0.collectionByName, c.Name ≠ p.1)) ∧
        (cs.map (fun c => c.infoSliceType)).Nodup ∧ (cs.map (fun c => c.Name)).Nodup := by
  induction cs with
  | nil =>
    intro b0
    simp [populate]
  | cons c rest ih =>
    intro b0
    simp only [populate]
    by_cases ht : (b0.collectionByType.lookup c.infoSliceType).isSome
    · simp only [ht, if_true]
      constructor
      · rintro ⟨b, hb⟩; cases hb
      · rintro ⟨h1, -, -⟩
        rw [List.lookup_isSome_iff] at ht
        obtain ⟨p, hp, hpe⟩ := ht
        exact absurd (by simpa using hpe) ((h1 c (List.mem_cons_self _ _)).1 p hp)
    · by_cases hn : (b0.collectionByName.lookup c.Name).isSome
      · simp only [ht, hn, if_true, if_false]
        constructor
        · rintro ⟨b, hb⟩; cases hb
        · rintro ⟨h1, -, -⟩
          rw [List.lookup_isSome_iff] at hn
          obtain ⟨p, hp, hpe⟩ := hn
          exact absurd (by simpa using hpe) ((h1 c (List.mem_cons_self _ _)).2 p hp)
      · simp only [ht, hn, if_false, Bool.false_eq_true]
        rw [ih]
        rw [List.lookup_isSome_iff] at ht hn
        simp only [not_exists, not_and, beq_iff_eq] at ht hn
        simp only [List.mem_append, List.mem_singleton, List.mem_cons, List.map_cons,
          List.nodup_cons, List.mem_map, not_exists, not_and, List.not_mem_nil, or_false]
        constructor
        · rintro ⟨h1, h2, h3⟩
          refine ⟨?_, ⟨?_, h2⟩, ⟨?_, h3⟩⟩
          · rintro x (rfl | hx)
            · exact ⟨fun p hp => ht p hp, fun p hp => hn p hp⟩
            · exact ⟨fun p hp => (h1 x hx).1 p (Or.inl hp),
                fun p hp => (h1 x hx).2 p (Or.inl hp)⟩
          · intro x hx he
            exact (h1 x hx).1 (c.infoSliceType, c) (Or.inr rfl) he
          · intro x hx he
            exact (h1 x hx).2 (c.Name, c) (Or.inr rfl) he
        · rintro ⟨h1, ⟨h2, h2'⟩, ⟨h3, h3'⟩⟩
          refine ⟨?_, h2', h3'⟩
          intro x hx
          constructor
          · rintro p (hp | rfl)
            · exact (h1 x (Or.inr hx)).1 p hp
            · exact fun he => h2 x hx he
          · rintro p (hp | rfl)
            · exact (h1 x (Or.inr hx)).2 p hp
            · exact fun he => h3 x hx he

theorem populate_maps : ∀ (cs : List allWatcherStateCollection)
    (b0 b : allWatcherStateBacking), populate b0 cs = .ok b →
    b.collectionByName = b0.collectionByName ++ cs.map (fun c => (c.Name, c)) ∧
    b.collectionByType = b0.collectionByType ++ cs.map (fun c => (c.infoSliceType, c)) := by
  intro cs
  induction cs with
  | nil =>
    intro b0 b h
    simp only [populate, Except.ok.injEq] at h
    subst h
    simp
  | cons c rest ih =>
    intro b0 b h
    simp only [populate] at h
    split at h
    · cases h
    · split at h
      · cases h
      · obtain ⟨h1, h2⟩ := ih _ _ h
        rw [h1, h2]
        simp

theorem lookup_map_of_nodup {α κ : Type} [DecidableEq κ] (f : α → κ) :
    ∀ (cs : List α) (c : α), (cs.map f).Nodup → c ∈ cs →
      (cs.map (fun c => (f c, c))).lookup (f c) = some c := by
  intro cs
  induction cs with
  | nil => intro c _ hc; cases hc
  | cons x xs ih =>
    intro c hnd hc
    rw [List.map_cons, List.nodup_cons] at hnd
    rw [List.map_cons, List.lookup_cons]
    rcases List.mem_cons.mp hc with rfl | hc
    · simp
    · have hne : f c ≠ f x := fun e => hnd.1 (e ▸ List.mem_map_of_mem f hc)
      have : (f c == f x) = false := by simpa using hne
      rw [this]
      exact ih c hnd.2 hc

/-- C17: building the two maps of the backing from a list of collections panics
exactly when two entries of the list share a collection name or a document
type; when it does not panic, every entry is found under its name in
`collectionByName` and under its document type in `collectionByType`. For the
list of `newAllWatcherStateBacking`, whose document types are distinct, the
panic occurs exactly when two of its collections bear the same name. -/
theorem registry_construction (st : State) (cs : List allWatcherStateCollection) :
    ((∃ p, populate { st := st, collectionByName := [], collectionByType := [] } cs =
        .error p) ↔
      (¬ (cs.map (fun c => c.Name)).Nodup ∨ ¬ (cs.map (fun c => c.infoSliceType)).Nodup)) ∧
    (∀ b, populate { st := st, collectionByName := [], collectionByType := [] } cs = .ok b →
      ∀ c ∈ cs, b.collectionByName.lookup c.Name = some c ∧
        b.collectionByType.lookup c.infoSliceType = some c) ∧
    ((∃ p, newAllWatcherStateBacking st = .error p) ↔
      ¬ ((collections st).map (fun c => c.Name)).Nodup) := by
  have key : ∀ cs : List allWatcherStateCollection,
      (∃ p, populate { st := st, collectionByName := [], collectionByType := [] } cs =
        .error p) ↔
      (¬ (cs.map (fun c => c.Name)).Nodup ∨
        ¬ (cs.map (fun c => c.infoSliceType)).Nodup) := by
    intro cs
    have h := populate_ok_iff cs { st := st, collectionByName := [], collectionByType := [] }
    simp only [List.not_mem_nil, false_implies, implies_true, and_self, true_and] at h
    cases hp : populate { st := st, collectionByName := [], collectionByType := [] } cs with
    | error p =>
      rw [hp] at h
      simp only [reduceCtorEq, exists_false, false_iff, not_and] at h
      simp only [Except.error.injEq, exists_eq', true_iff]
      by_cases hn : (cs.map (fun c => c.Name)).Nodup
      · exact Or.inr (fun ht => h ht hn)
      · exact Or.inl hn
    | ok b =>
      rw [hp] at h
      have h2 := h.mp ⟨b, rfl⟩
      simp only [reduceCtorEq, exists_false, false_iff, not_or, not_not]
      exact ⟨h2.2, h2.1⟩
  refine ⟨key cs, ?_, ?_⟩
  · intro b hb c hc
    have h := (populate_ok_iff cs _).mp ⟨b, hb⟩
    obtain ⟨m1, m2⟩ := populate_maps _ _ _ hb
    rw [m1, m2]
    simp only [List.nil_append]
    exact ⟨lookup_map_of_nodup (fun c => c.Name) cs c h.2.2 hc,
      lookup_map_of_nodup (fun c => c.infoSliceType) cs c h.2.1 hc⟩
  · have ht : ((collections st).map (fun c => c.infoSliceType)).Nodup := by
      simp [collections]
    rw [newAllWatcherStateBacking, key (collections st)]
    simp [ht]

theorem registry_construction_witness :
    populate { st := exampleState, collectionByName := [], collectionByType := [] }
        (collections exampleState) = .ok (backingOf exampleState) ∧
      ∀ c ∈ collections exampleState,
        (backingOf exampleState).collectionByName.lookup c.Name = some c ∧
        (backingOf exampleState).collectionByType.lookup c.infoSliceType = some c :=
  ⟨rfl, (registry_construction exampleState (collections exampleState)).2.1
    (backingOf exampleState) rfl⟩

/-! ## Bulk-fetch failure in `GetAll` -/

theorem GetAll_append (b : allWatcherStateBacking) :
    ∀ (pre rest : List allWatcherStateCollection) (all : Store),
      (b.GetAll pre all).result = .ok →
      b.GetAll (pre ++ rest) all =
        ⟨(b.GetAll rest (b.GetAll pre all).store).store,
          (b.GetAll pre all).lookups ++ (b.GetAll rest (b.GetAll pre all).store).lookups,
          (b.GetAll rest (b.GetAll pre all).store).result⟩ := by
  intro pre
  induction pre with
  | nil =>
    intro rest all _
    simp [allWatcherStateBacking.GetAll]
  | cons c pre ih =>
    intro rest all h
    rw [List.cons_append]
    cases hsub : c.subsidiary with
    | true =>
      have e1 : ∀ l, b.GetAll (c :: l) all = b.GetAll l all := by
        intro l; simp [allWatcherStateBacking.GetAll, hsub]
      rw [e1] at h ⊢
      rw [e1]
      exact ih rest all h
    | false =>
      cases hf : c.FindAll b.st with
      | error err =>
        simp [allWatcherStateBacking.GetAll, hsub, hf] at h
      | ok infos =>
        cases hr : (GetAll.infos b.st infos all).result with
        | ok =>
          have e1 : ∀ l, b.GetAll (c :: l) all =
              ⟨(b.GetAll l (GetAll.infos b.st infos all).store).store,
                (GetAll.infos b.st infos all).lookups ++
                  (b.GetAll l (GetAll.infos b.st infos all).store).lookups,
                (b.GetAll l (GetAll.infos b.st infos all).store).result⟩ := by
            intro l; simp [allWatcherStateBacking.GetAll, hsub, hf, hr]
          rw [e1] at h ⊢
          rw [e1, ih rest _ h]
          simp
        | error e =>
          simp [allWatcherStateBacking.GetAll, hsub, hf, hr] at h
        | panicked p =>
          simp [allWatcherStateBacking.GetAll, hsub, hf, hr] at h

/-- C11: when the collections `pre` visited first are processed without
failure and the bulk fetch of the next collection `c`, a primary one, fails with
`err`, `GetAll` returns the error "cannot get all <name of c>: <err>", and the
store (and lookups) are those left by processing `pre`: the collections `post`
that would have followed are not processed. -/
theorem getAll_bulk_fetch_failure (b : allWatcherStateBacking)
    (pre post : List allWatcherStateCollection) (c : allWatcherStateCollection)
    (all : Store) (err : Error)
    (hpre : (b.GetAll pre all).result = .ok) (hsub : c.subsidiary = false)
    (hfail : c.FindAll b.st = .error err) :
    b.GetAll (pre ++ c :: post) all =
      ⟨(b.GetAll pre all).store, (b.GetAll pre all).lookups,
        .error (.errorf ("cannot get all " ++ c.Name ++ ": " ++ err.Error))⟩ := by
  rw [GetAll_append b pre (c :: post) all hpre]
  simp [allWatcherStateBacking.GetAll, hsub, hfail]

theorem getAll_bulk_fetch_failure_witness :
    ((backingOf unitsDownState).GetAll [⟨"machines", .backingMachine, false⟩]
        Store.empty).result = .ok ∧
      (backingOf unitsDownState).GetAll
          ([⟨"machines", .backingMachine, false⟩] ++ ⟨"units", .backingUnit, false⟩ ::
            [⟨"services", .backingService, false⟩]) Store.empty =
        ⟨((backingOf unitsDownState).GetAll [⟨"machines", .backingMachine, false⟩]
            Store.empty).store,
          ((backingOf unitsDownState).GetAll [⟨"machines", .backingMachine, false⟩]
            Store.empty).lookups,
          .error (.errorf ("cannot get all " ++ "units" ++ ": " ++
            (Error.errorf "EOF").Error))⟩ :=
  ⟨by decide,
    getAll_bulk_fetch_failure (backingOf unitsDownState)
      [⟨"machines", .backingMachine, false⟩] [⟨"services", .backingService, false⟩]
      ⟨"units", .backingUnit, false⟩ Store.empty (.errorf "EOF") (by decide) rfl rfl⟩

/-! ## Order of the collections in `GetAll` -/

theorem localTo_id (kind : String) : localTo kind (fun s => s) :=
  ⟨fun _ _ _ => rfl, fun _ _ h => h⟩

theorem localTo_comp {kind : String} {T1 T2 : Store → Store}
    (h1 : localTo kind T1) (h2 : localTo kind T2) : localTo kind (fun s => T2 (T1 s)) :=
  ⟨fun s id hid => by rw [h2.1 _ id hid, h1.1 s id hid],
   fun s1 s2 h => h2.2 _ _ (h1.2 s1 s2 h)⟩

theorem localTo_modify (key : EntityId) (f : Option Info → Option Info)
    (hf : ∀ o info, f o = some info → info.EntityId = key) :
    localTo key.Kind (fun s => s.modify key f) := by
  constructor
  · intro s id hid
    simp only [Store.modify]
    cases h : f (s.Get key) with
    | none => rfl
    | some info =>
      have hk := hf _ _ h
      exact Store.Get_Update_other _ _ (by rw [hk]; intro e; exact hid (by rw [e]))
  · intro s1 s2 h id hid
    have hkey : s1.Get key = s2.Get key := h key rfl
    simp only [Store.modify, ← hkey]
    cases hfo : f (s1.Get key) with
    | none => exact h id hid
    | some info =>
      have hk := hf _ _ hfo
      by_cases e : id = info.EntityId
      · rw [e, Store.Get_Update_self, Store.Get_Update_self]
      · rw [Store.Get_Update_other _ _ e, Store.Get_Update_other _ _ e]
        exact h id hid

theorem localTo_cong {kind : String} {T : Store → Store} (h : localTo kind T)
    {s1 s2 : Store} (he : ∀ id, s1.Get id = s2.Get id) : ∀ id, (T s1).Get id = (T s2).Get id := by
  intro id
  by_cases hid : id.Kind = kind
  · exact h.2 s1 s2 (fun i _ => he i) id hid
  · rw [h.1 s1 id hid, h.1 s2 id hid]; exact he id

theorem localTo_comm {k1 k2 : String} {T1 T2 : Store → Store} (h1 : localTo k1 T1)
    (h2 : localTo k2 T2) (hne : k1 ≠ k2) (s : Store) :
    ∀ id, (T1 (T2 s)).Get id = (T2 (T1 s)).Get id := by
  intro id
  by_cases e1 : id.Kind = k1
  · have e2 : id.Kind ≠ k2 := by rw [e1]; exact hne
    rw [h2.1 _ id e2]
    exact h1.2 _ _ (fun i hi => h2.1 s i (by rw [hi]; exact hne)) id e1
  · rw [h1.1 _ id e1]
    by_cases e2 : id.Kind = k2
    · exact (h2.2 _ _ (fun i hi => h1.1 s i (by rw [hi]; exact fun e => hne e.symm)) id e2).symm
    · rw [h2.1 _ id e2, h2.1 _ id e2, h1.1 _ id e1]

theorem machine_updated_local (m : backingMachine) (st : State) (i : String) :
    (∀ s p, (m.updated st s i).result ≠ .panicked p) ∧
    localTo "machine" (fun s => (m.updated st s i).store) := by
  constructor
  · intro s p
    simp only [backingMachine.updated, Info.EntityId]
    cases h : s.Get { Kind := "machine", Id := m.Id } with
    | none => cases st.getStatus (machineGlobalKey m.Id) <;> simp
    | some old =>
      have hk := Store.Get_EntityId h
      cases old <;> simp [Info.EntityId] at hk ⊢
  · have e : (fun s => (m.updated st s i).store) =
        (fun s : Store => s.modify { Kind := "machine", Id := m.Id } (fun o =>
          match o with
          | none =>
            match st.getStatus (machineGlobalKey m.Id) with
            | .error _ => none
            | .ok sdoc => some (.machine ⟨m.Id, m.InstanceId, sdoc.Status, sdoc.StatusInfo⟩)
          | some (.machine old) =>
            some (.machine ⟨m.Id, m.InstanceId, old.Status, old.StatusInfo⟩)
          | some _ => none)) := by
      funext s
      simp only [backingMachine.updated, Info.EntityId, Store.modify]
      cases h : s.Get { Kind := "machine", Id := m.Id } with
      | none => cases st.getStatus (machineGlobalKey m.Id) <;> rfl
      | some old => cases old <;> rfl
    rw [e]
    refine localTo_modify { Kind := "machine", Id := m.Id } _ ?_
    intro o info ho
    cases o with
    | none =>
      cases hs : st.getStatus (machineGlobalKey m.Id) <;> simp [hs] at ho
      subst ho; rfl
    | some old =>
      cases old <;> simp at ho
      subst ho; rfl

theorem unit_updated_local (u : backingUnit) (st : State) (i : String) :
    (∀ s p, (u.updated st s i).result ≠ .panicked p) ∧
    localTo "unit" (fun s => (u.updated st s i).store) := by
  constructor
  · intro s p
    cases hc : u.CharmURL <;>
      simp only [backingUnit.updated, Info.EntityId, hc] <;>
      cases h : s.Get { Kind := "unit", Id := u.Name } with
      | none => cases st.getStatus (unitGlobalKey u.Name) <;> simp
      | some old =>
        have hk := Store.Get_EntityId h
        cases old <;> simp [Info.EntityId] at hk ⊢
  · have e : (fun s => (u.updated st s i).store) =
        (fun s : Store => s.modify { Kind := "unit", Id := u.Name } (fun o =>
          match o with
          | none =>
            match st.getStatus (unitGlobalKey u.Name) with
            | .error _ => none
            | .ok sdoc =>
              some (.unit ⟨u.Name, u.Service, u.Series, u.PublicAddress, u.PrivateAddress,
                u.MachineId, u.Ports, u.CharmURL.getD "", sdoc.Status, sdoc.StatusInfo⟩)
          | some (.unit old) =>
            some (.unit ⟨u.Name, u.Service, u.Series, u.PublicAddress, u.PrivateAddress,
              u.MachineId, u.Ports, u.CharmURL.getD "", old.Status, old.StatusInfo⟩)
          | some _ => none)) := by
      funext s
      cases hc : u.CharmURL <;>
        simp only [backingUnit.updated, Info.EntityId, Store.modify, hc, Option.getD] <;>
        cases h : s.Get { Kind := "unit", Id := u.Name } with
        | none => cases st.getStatus (unitGlobalKey u.Name) <;> rfl
        | some old => cases old <;> rfl
    rw [e]
    refine localTo_modify { Kind := "unit", Id := u.Name } _ ?_
    intro o info ho
    cases o with
    | none =>
      cases hs : st.getStatus (unitGlobalKey u.Name) <;> simp [hs] at ho
      subst ho; rfl
    | some old =>
      cases old <;> simp at ho
      subst ho; rfl

theorem service_updated_local (svc : backingService) (st : State) (i : String) :
    (∀ s p, (svc.updated st s i).result ≠ .panicked p) ∧
    localTo "service" (fun s => (svc.updated st s i).store) := by
  constructor
  · intro s p
    simp only [backingService.updated, Info.EntityId]
    cases h : s.Get { Kind := "service", Id := svc.Name } with
    | none => cases st.readConstraints (serviceGlobalKey svc.Name) <;> simp
    | some old =>
      have hk := Store.Get_EntityId h
      cases old <;> simp [Info.EntityId] at hk ⊢
  · have e : (fun s => (svc.updated st s i).store) =
        (fun s : Store => s.modify { Kind := "service", Id := svc.Name } (fun o =>
          match o with
          | none =>
            match st.readConstraints (serviceGlobalKey svc.Name) with
            | .error _ => none
            | .ok c => some (.service ⟨svc.Name, svc.Exposed, svc.CharmURL, c⟩)
          | some (.service old) =>
            some (.service ⟨svc.Name, svc.Exposed, svc.CharmURL, old.Constraints⟩)
          | some _ => none)) := by
      funext s
      simp only [backingService.updated, Info.EntityId, Store.modify]
      cases h : s.Get { Kind := "service", Id := svc.Name } with
      | none => cases st.readConstraints (serviceGlobalKey svc.Name) <;> rfl
      | some old => cases old <;> rfl
    rw [e]
    refine localTo_modify { Kind := "service", Id := svc.Name } _ ?_
    intro o info ho
    cases o with
    | none =>
      cases hs : st.readConstraints (serviceGlobalKey svc.Name) <;> simp [hs] at ho
      subst ho; rfl
    | some old =>
      cases old <;> simp at ho
      subst ho; rfl

theorem relation_updated_local (r : backingRelation) (st : State) (i : String) :
    (∀ s p, (r.updated st s i).result ≠ .panicked p) ∧
    localTo "relation" (fun s => (r.updated st s i).store) := by
  constructor
  · intro s p
    simp [backingRelation.updated]
  · have e : (fun s => (r.updated st s i).store) =
        (fun s : Store => s.modify { Kind := "relation", Id := r.Key } (fun _ =>
          some (.relation ⟨r.Key,
            r.Endpoints.map (fun ep => ⟨ep.ServiceName, ep.Relation⟩)⟩))) := by
      funext s
      rfl
    rw [e]
    refine localTo_modify { Kind := "relation", Id := r.Key } _ ?_
    intro o info ho
    simp at ho
    subst ho; rfl

theorem annotationDoc_updated_local (a : backingAnnotation) (st : State) (i : String) :
    (∀ s p, (a.updated st s i).result ≠ .panicked p) ∧
    localTo "annotation" (fun s => (a.updated st s i).store) := by
  constructor
  · intro s p
    simp [ backingAnnotation.updated]
  · have e : (fun s => (a.updated st s i).store) =
        (fun s : Store => s.modify { Kind := "annotation", Id := a.Tag } (fun _ =>
          some (Info.annotation ⟨a.Tag, a.Annotations⟩))) := by
      funext s
      rfl
    rw [e]
    refine localTo_modify { Kind := "annotation", Id := a.Tag } _ ?_
    intro o info ho
    simp at ho
    subst ho; rfl

theorem entityDoc_updated_local (d : backingEntityDoc) (st : State)
    (hs : d.docType ≠ .backingStatus) (hc : d.docType ≠ .backingConstraints) :
    (∃ i, d.mongoId = .ok i) ∧
    ∀ i, (∀ s p, (d.updated st s i).result ≠ .panicked p) ∧
      localTo d.docType.Kind (fun s => (d.updated st s i).store) := by
  cases d with
  | machine m => exact ⟨⟨_, rfl⟩, fun i => machine_updated_local m st i⟩
  | unit u => exact ⟨⟨_, rfl⟩, fun i => unit_updated_local u st i⟩
  | service svc => exact ⟨⟨_, rfl⟩, fun i => service_updated_local svc st i⟩
  | relation r => exact ⟨⟨_, rfl⟩, fun i => relation_updated_local r st i⟩
  | annotation a => exact ⟨⟨_, rfl⟩, fun i => annotationDoc_updated_local a st i⟩
  | status s => exact absurd rfl hs
  | constraints s => exact absurd rfl hc

theorem GetAll.infos_local (st : State) (kind : String) :
    ∀ docs : List backingEntityDoc,
      (∀ d ∈ docs, (∃ i, d.mongoId = .ok i) ∧
        ∀ i, (∀ s p, (d.updated st s i).result ≠ .panicked p) ∧
          localTo kind (fun s => (d.updated st s i).store)) →
      (∀ s, (GetAll.infos st docs s).result = .ok) ∧
      localTo kind (fun s => (GetAll.infos st docs s).store) := by
  intro docs
  induction docs with
  | nil =>
    intro _
    exact ⟨fun _ => rfl, localTo_id kind⟩
  | cons d ds ih =>
    intro h
    obtain ⟨⟨i, hi⟩, hd⟩ := h d (List.mem_cons_self _ _)
    obtain ⟨r1, r2⟩ := ih (fun e he => h e (List.mem_cons_of_mem _ he))
    have e : ∀ s, GetAll.infos st (d :: ds) s =
        ⟨(GetAll.infos st ds (d.updated st s i).store).store,
          (d.updated st s i).lookups ++ (GetAll.infos st ds (d.updated st s i).store).lookups,
          (GetAll.infos st ds (d.updated st s i).store).result⟩ := by
      intro s
      have hnp := (hd i).1 s
      cases hr : (d.updated st s i).result with
      | ok => simp only [GetAll.infos, hi, hr]
      | error e => simp only [GetAll.infos, hi, hr]
      | panicked p => exact absurd hr (hnp p)
    constructor
    · intro s
      rw [e]
      exact r1 _
    · have e2 : (fun s => (GetAll.infos st (d :: ds) s).store) =
          (fun s => (fun t => (GetAll.infos st ds t).store)
            ((fun t => (d.updated st t i).store) s)) := by
        funext s
        rw [e]
      rw [e2]
      exact localTo_comp (hd i).2 r2

theorem DocType.Kind_injective : ∀ t1 t2 : DocType, t1.Kind = t2.Kind → t1 = t2 := by
  intro t1 t2 h
  cases t1 <;> cases t2 <;> first | rfl | (exact absurd h (by decide))

theorem collections_eq_of_type (st : State) {c1 c2 : allWatcherStateCollection}
    (h1 : c1 ∈ collections st) (h2 : c2 ∈ collections st)
    (h : c1.infoSliceType = c2.infoSliceType) : c1 = c2 := by
  simp only [collections, List.mem_cons, List.mem_singleton, List.not_mem_nil,
    or_false] at h1 h2
  rcases h1 with rfl | rfl | rfl | rfl | rfl | rfl | rfl <;>
    rcases h2 with rfl | rfl | rfl | rfl | rfl | rfl | rfl <;>
    first | rfl | (simp at h)

theorem fetched_docType (st : State) {c : allWatcherStateCollection}
    (hc : c ∈ collections st) :
    ∀ d ∈ c.fetched st, d.docType = c.infoSliceType ∧
      d.docType ≠ .backingStatus ∧ d.docType ≠ .backingConstraints := by
  simp only [collections, List.mem_cons, List.mem_singleton, List.not_mem_nil,
    or_false] at hc
  intro d hd
  rcases hc with rfl | rfl | rfl | rfl | rfl | rfl | rfl
  · simp only [allWatcherStateCollection.fetched, allWatcherStateCollection.FindAll] at hd
    cases h : st.machines.All <;> simp [h, Except.map] at hd
    obtain ⟨m, -, rfl⟩ := hd
    exact ⟨rfl, by simp [backingEntityDoc.docType], by simp [backingEntityDoc.docType]⟩
  · simp only [allWatcherStateCollection.fetched, allWatcherStateCollection.FindAll] at hd
    cases h : st.units.All <;> simp [h, Except.map] at hd
    obtain ⟨m, -, rfl⟩ := hd
    exact ⟨rfl, by simp [backingEntityDoc.docType], by simp [backingEntityDoc.docType]⟩
  · simp only [allWatcherStateCollection.fetched, allWatcherStateCollection.FindAll] at hd
    cases h : st.services.All <;> simp [h, Except.map] at hd
    obtain ⟨m, -, rfl⟩ := hd
    exact ⟨rfl, by simp [backingEntityDoc.docType], by simp [backingEntityDoc.docType]⟩
  · simp only [allWatcherStateCollection.fetched, allWatcherStateCollection.FindAll] at hd
    cases h : st.relations.All <;> simp [h, Except.map] at hd
    obtain ⟨m, -, rfl⟩ := hd
    exact ⟨rfl, by simp [backingEntityDoc.docType], by simp [backingEntityDoc.docType]⟩
  · simp only [allWatcherStateCollection.fetched, allWatcherStateCollection.FindAll] at hd
    cases h : st.annotations.All <;> simp [h, Except.map] at hd
    obtain ⟨m, -, rfl⟩ := hd
    exact ⟨rfl, by simp [backingEntityDoc.docType], by simp [backingEntityDoc.docType]⟩
  · simp [allWatcherStateCollection.fetched] at hd
  · simp [allWatcherStateCollection.fetched] at hd

theorem merged_local (st : State) {c : allWatcherStateCollection}
    (hc : c ∈ collections st) :
    (∀ s, (GetAll.infos st (c.fetched st) s).result = .ok) ∧
    localTo c.infoSliceType.Kind (c.merged st) := by
  have h := GetAll.infos_local st c.infoSliceType.Kind (c.fetched st) (by
    intro d hd
    obtain ⟨e, hs, hcs⟩ := fetched_docType st hc d hd
    have := entityDoc_updated_local d st hs hcs
    rw [e] at this
    exact this)
  exact h

theorem GetAll_eq_foldl (b : allWatcherStateBacking) :
    ∀ (order : List allWatcherStateCollection) (all : Store),
      (∀ c ∈ order, c ∈ collections b.st) →
      (∀ c ∈ order, c.subsidiary = false → ∃ infos, c.FindAll b.st = .ok infos) →
      (b.GetAll order all).result = .ok ∧
      (b.GetAll order all).store = order.foldl (fun s c => c.merged b.st s) all := by
  intro order
  induction order with
  | nil =>
    intro all _ _
    exact ⟨rfl, rfl⟩
  | cons c rest ih =>
    intro all hmem hfetch
    have hrest := fun s => ih s (fun c2 h2 => hmem c2 (List.mem_cons_of_mem _ h2))
      (fun c2 h2 => hfetch c2 (List.mem_cons_of_mem _ h2))
    rw [List.foldl_cons]
    cases hsub : c.subsidiary with
    | true =>
      have e : b.GetAll (c :: rest) all = b.GetAll rest all := by
        simp [allWatcherStateBacking.GetAll, hsub]
      have e2 : c.merged b.st all = all := by
        simp [allWatcherStateCollection.merged, allWatcherStateCollection.fetched, hsub,
          GetAll.infos]
      rw [e, e2]
      exact hrest all
    | false =>
      obtain ⟨infos, hinfos⟩ := hfetch c (List.mem_cons_self _ _) hsub
      have hf : c.fetched b.st = infos := by
        simp [allWatcherStateCollection.fetched, hsub, hinfos]
      have hok := (merged_local b.st (hmem c (List.mem_cons_self _ _))).1 all
      rw [hf] at hok
      have e : b.GetAll (c :: rest) all =
          ⟨(b.GetAll rest (GetAll.infos b.st infos all).store).store,
            (GetAll.infos b.st infos all).lookups ++
              (b.GetAll rest (GetAll.infos b.st infos all).store).lookups,
            (b.GetAll rest (GetAll.infos b.st infos all).store).result⟩ := by
        simp [allWatcherStateBacking.GetAll, hsub, hinfos, hok]
      have e2 : c.merged b.st all = (GetAll.infos b.st infos all).store := by
        simp [allWatcherStateCollection.merged, hf]
      rw [e, e2]
      exact hrest _

theorem foldl_merged_perm (st : State) {l1 l2 : List allWatcherStateCollection}
    (h : l1.Perm l2) :
    (∀ c ∈ l1, c ∈ collections st) →
    ∀ s1 s2 : Store, (∀ id, s1.Get id = s2.Get id) →
      ∀ id, (l1.foldl (fun s c => c.merged st s) s1).Get id =
        (l2.foldl (fun s c => c.merged st s) s2).Get id := by
  induction h with
  | nil =>
    intro _ s1 s2 he
    exact he
  | cons x _ ih =>
    intro hmem s1 s2 he
    rw [List.foldl_cons, List.foldl_cons]
    exact ih (fun c hc => hmem c (List.mem_cons_of_mem _ hc)) _ _
      (localTo_cong (merged_local st (hmem x (List.mem_cons_self _ _))).2 he)
  | swap x y l =>
    intro hmem s1 s2 he
    have hx : x ∈ collections st := hmem x (List.mem_cons_of_mem _ (List.mem_cons_self _ _))
    have hy : y ∈ collections st := hmem y (List.mem_cons_self _ _)
    have hl : ∀ c ∈ l, c ∈ collections st :=
      fun c hc => hmem c (List.mem_cons_of_mem _ (List.mem_cons_of_mem _ hc))
    have hrefl : ∀ (l : List allWatcherStateCollection), (∀ c ∈ l, c ∈ collections st) →
        ∀ t1 t2 : Store, (∀ id, t1.Get id = t2.Get id) →
          ∀ id, (l.foldl (fun s c => c.merged st s) t1).Get id =
            (l.foldl (fun s c => c.merged st s) t2).Get id := by
      intro l
      induction l with
      | nil => intro _ t1 t2 ht; exact ht
      | cons z zs ihz =>
        intro hz t1 t2 ht
        rw [List.foldl_cons, List.foldl_cons]
        exact ihz (fun c hc => hz c (List.mem_cons_of_mem _ hc)) _ _
          (localTo_cong (merged_local st (hz z (List.mem_cons_self _ _))).2 ht)
    simp only [List.foldl_cons]
    apply hrefl l hl
    intro id
    by_cases hxy : x = y
    · subst hxy
      exact localTo_cong (merged_local st hx).2
        (localTo_cong (merged_local st hx).2 he) id
    · have hk : y.infoSliceType.Kind ≠ x.infoSliceType.Kind := by
        intro e
        exact hxy (collections_eq_of_type st hx hy (DocType.Kind_injective _ _ e).symm)
      rw [localTo_comm (merged_local st hx).2 (merged_local st hy).2
        (fun e => hk e.symm) s1 id]
      exact localTo_cong (merged_local st hy).2
        (localTo_cong (merged_local st hx).2 he) id
  | trans h12 _ ih1 ih2 =>
    intro hmem s1 s2 he id
    rw [ih1 hmem s1 s2 he id]
    exact ih2 (fun c hc => hmem c (h12.mem_iff.mpr hc)) s2 s2 (fun _ => rfl) id

theorem Store.wf_Update {a : Store} (h : a.wf) (info : Info) : (a.Update info).wf := by
  simp only [Store.wf, Store.Update, List.map_cons, List.nodup_cons]
  constructor
  · intro hm
    obtain ⟨x, hx, hxe⟩ := List.mem_map.mp hm
    have := (List.mem_filter.mp hx).2
    simp [hxe] at this
  · exact h.sublist ((List.filter_sublist _).map _)

theorem backingEntityDoc.updated_store (d : backingEntityDoc) (st : State) (s : Store)
    (i : String) :
    (d.updated st s i).store = s ∨ ∃ info, (d.updated st s i).store = s.Update info := by
  cases d with
  | machine m =>
    simp only [backingEntityDoc.updated, backingMachine.updated]
    split
    · split
      · exact Or.inl rfl
      · exact Or.inr ⟨_, rfl⟩
    · exact Or.inr ⟨_, rfl⟩
    · exact Or.inl rfl
  | unit u =>
    simp only [backingEntityDoc.updated, backingUnit.updated]
    split
    · split
      · exact Or.inl rfl
      · exact Or.inr ⟨_, rfl⟩
    · exact Or.inr ⟨_, rfl⟩
    · exact Or.inl rfl
  | service svc =>
    simp only [backingEntityDoc.updated, backingService.updated]
    split
    · split
      · exact Or.inl rfl
      · exact Or.inr ⟨_, rfl⟩
    · exact Or.inr ⟨_, rfl⟩
    · exact Or.inl rfl
  | relation r => exact Or.inr ⟨_, rfl⟩
  | annotation a => exact Or.inr ⟨_, rfl⟩
  | status x =>
    simp only [backingEntityDoc.updated, backingStatus.updated]
    split
    · exact Or.inl rfl
    · split
      · exact Or.inl rfl
      · exact Or.inr ⟨_, rfl⟩
      · exact Or.inr ⟨_, rfl⟩
      · exact Or.inl rfl
  | constraints x =>
    simp only [backingEntityDoc.updated, backingConstraints.updated]
    split
    · exact Or.inl rfl
    · split
      · exact Or.inl rfl
      · exact Or.inl rfl
      · exact Or.inl rfl
      · exact Or.inr ⟨_, rfl⟩
      · exact Or.inl rfl

theorem GetAll.infos_wf (st : State) :
    ∀ (docs : List backingEntityDoc) (s : Store), s.wf → (GetAll.infos st docs s).store.wf := by
  intro docs
  induction docs with
  | nil => intro s h; exact h
  | cons d ds ih =>
    intro s h
    simp only [GetAll.infos]
    cases hm : d.mongoId with
    | error p => exact h
    | ok i =>
      have hw : (d.updated st s i).store.wf := by
        rcases d.updated_store st s i with e | ⟨info, e⟩
        · rw [e]; exact h
        · rw [e]; exact Store.wf_Update h info
      cases hr : (d.updated st s i).result with
      | ok => simp only [hr]; exact ih _ hw
      | error e => simp only [hr]; exact ih _ hw
      | panicked p => simp only [hr]; exact hw

theorem foldl_merged_wf (st : State) :
    ∀ (l : List allWatcherStateCollection) (s : Store), s.wf →
      (l.foldl (fun s c => c.merged st s) s).wf := by
  intro l
  induction l with
  | nil => intro s h; exact h
  | cons c cs ih =>
    intro s h
    rw [List.foldl_cons]
    exact ih _ (GetAll.infos_wf st _ s h)

theorem Store.mem_iff_Get {a : Store} (h : a.wf) (x : Info) :
    x ∈ a.entries ↔ a.Get x.EntityId = some x := by
  constructor
  · intro hx
    obtain ⟨es⟩ := a
    simp only [Store.wf] at h
    simp only [Store.Get]
    induction es with
    | nil => cases hx
    | cons y ys ih =>
      rw [List.map_cons, List.nodup_cons] at h
      rcases List.mem_cons.mp hx with rfl | hx
      · simp
      · have hne : y.EntityId ≠ x.EntityId := by
          intro e
          exact h.1 (e ▸ List.mem_map_of_mem Info.EntityId hx)
        rw [List.find?_cons_of_neg _ (by simpa using hne)]
        exact ih h.2 hx
  · intro hg
    exact List.mem_of_find?_eq_some hg

theorem Store.perm_of_Get {a b : Store} (ha : a.wf) (hb : b.wf)
    (h : ∀ id, a.Get id = b.Get id) : a.entries.Perm b.entries := by
  refine (List.perm_ext_iff_of_nodup (List.Nodup.of_map _ ha) (List.Nodup.of_map _ hb)).mpr ?_
  intro x
  rw [Store.mem_iff_Get ha, Store.mem_iff_Get hb, h]

/-- C12: when every bulk fetch of a primary collection succeeds, any two orders
in which `GetAll` may visit the collections of the registry give the same store
from the same initial store: both runs return no error and the two stores hold
the same Info under every EntityId; when no two entries of the initial store
share an EntityId, the two stores have the same entries up to their order. -/
theorem getAll_order_independent (st : State) (b : allWatcherStateBacking)
    (order1 order2 : List allWatcherStateCollection) (all : Store)
    (hb : newAllWatcherStateBacking st = .ok b)
    (h1 : b.visits order1) (h2 : b.visits order2)
    (hm : ∃ ms, st.machines.All = .ok ms) (hu : ∃ us, st.units.All = .ok us)
    (hs : ∃ ss, st.services.All = .ok ss) (hr : ∃ rs, st.relations.All = .ok rs)
    (ha : ∃ as, st.annotations.All = .ok as) :
    (b.GetAll order1 all).result = .ok ∧ (b.GetAll order2 all).result = .ok ∧
    (∀ id : EntityId,
      (b.GetAll order1 all).store.Get id = (b.GetAll order2 all).store.Get id) ∧
    ((all.entries.map Info.EntityId).Nodup →
      (b.GetAll order1 all).store.entries.Perm (b.GetAll order2 all).store.entries) := by
  obtain ⟨hst, hcs⟩ := newAllWatcherStateBacking_ok hb
  have hp1 : order1.Perm (collections st) := by
    have := h1
    rwa [allWatcherStateBacking.visits, hcs] at this
  have hp2 : order2.Perm (collections st) := by
    have := h2
    rwa [allWatcherStateBacking.visits, hcs] at this
  have hfetch : ∀ c ∈ collections st, c.subsidiary = false →
      ∃ infos, c.FindAll st = .ok infos := by
    intro c hc hsub
    obtain ⟨ms, hm⟩ := hm
    obtain ⟨us, hu⟩ := hu
    obtain ⟨ss, hs⟩ := hs
    obtain ⟨rs, hr⟩ := hr
    obtain ⟨as, ha⟩ := ha
    simp only [collections, List.mem_cons, List.mem_singleton, List.not_mem_nil,
      or_false] at hc
    rcases hc with rfl | rfl | rfl | rfl | rfl | rfl | rfl <;>
      simp [allWatcherStateCollection.FindAll, hm, hu, hs, hr, ha, Except.map] at hsub ⊢
  have m1 : ∀ c ∈ order1, c ∈ collections b.st := by
    intro c hc; rw [hst]; exact hp1.mem_iff.mp hc
  have m2 : ∀ c ∈ order2, c ∈ collections b.st := by
    intro c hc; rw [hst]; exact hp2.mem_iff.mp hc
  obtain ⟨r1, e1⟩ := GetAll_eq_foldl b order1 all m1
    (fun c hc hsub => by rw [hst]; exact hfetch c (hp1.mem_iff.mp hc) hsub)
  obtain ⟨r2, e2⟩ := GetAll_eq_foldl b order2 all m2
    (fun c hc hsub => by rw [hst]; exact hfetch c (hp2.mem_iff.mp hc) hsub)
  have hget := foldl_merged_perm b.st (hp1.trans hp2.symm) m1 all all (fun _ => rfl)
  refine ⟨r1, r2, ?_, ?_⟩
  · intro id
    rw [e1, e2]
    exact hget id
  · intro hwf
    rw [e1, e2]
    exact Store.perm_of_Get (foldl_merged_wf b.st order1 all hwf)
      (foldl_merged_wf b.st order2 all hwf) hget

theorem getAll_order_independent_witness :
    newAllWatcherStateBacking exampleState = .ok (backingOf exampleState) ∧
      (backingOf exampleState).visits (collections exampleState) ∧
      (backingOf exampleState).visits (collections exampleState).reverse ∧
      ((backingOf exampleState).GetAll (collections exampleState) exampleStore).result =
        .ok ∧
      ((backingOf exampleState).GetAll (collections exampleState).reverse
        exampleStore).result = .ok ∧
      (∀ id : EntityId,
        ((backingOf exampleState).GetAll (collections exampleState) exampleStore).store.Get
            id =
          ((backingOf exampleState).GetAll (collections exampleState).reverse
            exampleStore).store.Get id) ∧
      ((exampleStore.entries.map Info.EntityId).Nodup →
        ((backingOf exampleState).GetAll (collections exampleState)
            exampleStore).store.entries.Perm
          ((backingOf exampleState).GetAll (collections exampleState).reverse
            exampleStore).store.entries) :=
  ⟨rfl, List.Perm.refl _, List.reverse_perm _,
    getAll_order_independent exampleState (backingOf exampleState)
      (collections exampleState) (collections exampleState).reverse exampleStore rfl
      (List.Perm.refl _) (List.reverse_perm _) ⟨_, rfl⟩ ⟨_, rfl⟩ ⟨_, rfl⟩ ⟨_, rfl⟩ ⟨_, rfl⟩⟩

/-! ## Global keys, byte by byte -/

theorem uint8_all (P : UInt8 → Prop) (h : ∀ n (hn : n < 256), P ⟨⟨n, hn⟩⟩) : ∀ x, P x := by
  intro x
  obtain ⟨⟨n, hn⟩⟩ := x
  exact h n hn

set_option maxRecDepth 100000 in
theorem utf8_lead_bytes : ∀ x : UInt8,
    128 ≤ (x &&& 0x1f ||| 0xc0).toNat ∧ 128 ≤ (x &&& 0x0f ||| 0xe0).toNat ∧
    128 ≤ (x &&& 0x07 ||| 0xf0).toNat ∧ 128 ≤ (x &&& 0x3f ||| 0x80).toNat := by
  apply uint8_all
  decide

theorem utf8EncodeChar_cases (c : Char) :
    (c.utf8Size = 1 ∧ String.utf8EncodeChar c = [c.val.toUInt8] ∧ c.val.toNat < 128) ∨
    (1 < c.utf8Size ∧ 128 ≤ c.val.toNat ∧
      ∃ b0 b1 rest, String.utf8EncodeChar c = b0 :: b1 :: rest ∧
        128 ≤ b0.toNat ∧ 128 ≤ b1.toNat) := by
  unfold String.utf8EncodeChar Char.utf8Size
  by_cases h1 : c.val ≤ 0x7f
  · left
    refine ⟨by simp [h1], by simp [h1], ?_⟩
    have : c.val.toNat ≤ 127 := h1
    omega
  · right
    have hge : 128 ≤ c.val.toNat := by
      have : ¬ c.val.toNat ≤ 127 := h1
      omega
    by_cases h2 : c.val ≤ 0x7ff
    · refine ⟨by simp [h1, h2], hge, _, _, _,
        by simp only [h1, h2, if_true, if_false]; rfl, ?_, ?_⟩
      · exact (utf8_lead_bytes _).1
      · exact (utf8_lead_bytes _).2.2.2
    · by_cases h3 : c.val ≤ 0xffff
      · refine ⟨by simp [h1, h2, h3], hge, _, _, _,
          by simp only [h1, h2, h3, if_true, if_false]; rfl, ?_, ?_⟩
        · exact (utf8_lead_bytes _).2.1
        · exact (utf8_lead_bytes _).2.2.2
      · refine ⟨by simp [h1, h2, h3], hge, _, _, _,
          by simp only [h1, h2, h3, if_true, if_false]; rfl, ?_, ?_⟩
        · exact (utf8_lead_bytes _).2.2.1
        · exact (utf8_lead_bytes _).2.2.2

theorem globalKeyBytes_mk (cs : List Char) :
    globalKeyBytes ⟨cs⟩ = cs.flatMap String.utf8EncodeChar := rfl

theorem globalKeyBytes_length (key : String) :
    (globalKeyBytes key).length = key.utf8ByteSize := by
  have := String.size_toUTF8 key
  simpa [globalKeyBytes, ByteArray.size] using this

theorem utf8GetAux_of_lt : ∀ (cs : List Char) (i p : String.Pos), p.byteIdx < i.byteIdx →
    String.utf8GetAux cs i p = default := by
  intro cs
  induction cs with
  | nil => intro i p _; rfl
  | cons c cs ih =>
    intro i p h
    have hne : i ≠ p := by
      intro e
      rw [e] at h
      exact Nat.lt_irrefl _ h
    simp only [String.utf8GetAux, hne, if_false]
    apply ih
    show p.byteIdx < i.byteIdx + c.utf8Size
    omega

theorem head_bytes (cs : List Char) (ch : Char) (hch : ch.val.toNat < 128)
    (hd : ch ≠ default) :
    (cs.flatMap String.utf8EncodeChar)[0]? = some ch.val.toUInt8 ↔ cs.headD default = ch := by
  cases cs with
  | nil =>
    simp only [List.flatMap_nil, List.getElem?_nil, List.headD_nil]
    constructor
    · intro h; cases h
    · intro h; exact absurd h.symm hd
  | cons c cs =>
    rw [List.flatMap_cons, List.headD_cons]
    rcases utf8EncodeChar_cases c with ⟨-, he, hlt⟩ | ⟨-, hge, b0, b1, rest, he, h0, -⟩
    · rw [he]
      simp only [List.singleton_append, List.getElem?_cons_zero, Option.some.injEq]
      constructor
      · intro h
        apply Char.eq_of_val_eq
        apply UInt32.ext
        have h2 : c.val.toUInt8.toNat = ch.val.toUInt8.toNat := by rw [h]
        have e1 : c.val.toUInt8.toNat = c.val.toNat % 256 := rfl
        have e2 : ch.val.toUInt8.toNat = ch.val.toNat % 256 := rfl
        omega
      · intro h; rw [h]
    · rw [he]
      simp only [List.cons_append, List.getElem?_cons_zero, Option.some.injEq]
      constructor
      · intro h
        have h2 : b0.toNat = ch.val.toUInt8.toNat := by rw [h]
        have h3 : ch.val.toUInt8.toNat = ch.val.toNat % 256 := rfl
        omega
      · intro h
        rw [h] at hge
        omega

theorem first_byte_iff (key : String) (ch : Char) (hch : ch.val.toNat < 128)
    (hd : ch ≠ default) :
    (globalKeyBytes key)[0]? = some ch.val.toUInt8 ↔ key.get ⟨0⟩ = ch := by
  obtain ⟨cs⟩ := key
  rw [globalKeyBytes_mk, head_bytes cs ch hch hd]
  have := String.get_of_valid [] cs
  simp only [List.nil_append, String.utf8Len_nil] at this
  rw [this]

theorem second_byte_iff (key : String) (ch : Char) (hch : ch.val.toNat < 128)
    (hd : ch ≠ default) :
    (globalKeyBytes key)[1]? = some ch.val.toUInt8 ↔ key.get ⟨1⟩ = ch := by
  obtain ⟨cs⟩ := key
  rw [globalKeyBytes_mk]
  cases cs with
  | nil =>
    simp only [List.flatMap_nil, List.getElem?_nil]
    constructor
    · intro h; cases h
    · intro h
      exact absurd h.symm hd
  | cons c0 rest =>
    rw [List.flatMap_cons]
    rcases utf8EncodeChar_cases c0 with ⟨hs, he, -⟩ | ⟨hs, -, b0, b1, tl, he, -, h1⟩
    · rw [he]
      have hg := String.get_of_valid [c0] rest
      simp only [List.singleton_append, String.utf8Len_cons, String.utf8Len_nil, hs,
        Nat.zero_add] at hg
      rw [hg]
      simp only [List.singleton_append, List.getElem?_cons_succ]
      exact head_bytes rest ch hch hd
    · rw [he]
      have hg : String.get ⟨c0 :: rest⟩ ⟨1⟩ = default := by
        have hne : (0 : String.Pos) ≠ ⟨1⟩ := by
          intro e
          have := congrArg String.Pos.byteIdx e
          simp at this
        simp only [String.get, String.utf8GetAux, hne, if_false]
        apply utf8GetAux_of_lt
        show 1 < 0 + c0.utf8Size
        omega
      rw [hg]
      simp only [List.cons_append, List.getElem?_cons_succ, List.getElem?_cons_zero,
        Option.some.injEq]
      constructor
      · intro h
        have h2 : b1.toNat = ch.val.toUInt8.toNat := by rw [h]
        have h3 : ch.val.toUInt8.toNat = ch.val.toNat % 256 := rfl
        omega
      · intro h
        exact absurd h.symm hd

/-- C14: `backingEntityIdForGlobalKey` reports unresolved, with the zero
EntityId, exactly for the keys that are shorter than 3 bytes, whose second byte
is not `#`, or whose first byte is none of `m`, `u` and `s`; every other key is
resolved. The empty string and the bare `m#` are among the unresolved keys. -/
theorem globalKey_unresolved_iff (key : String) :
    ((backingEntityIdForGlobalKey key).2 = false ↔
      ((globalKeyBytes key).length < 3 ∨
        (globalKeyBytes key)[1]? ≠ some ('#').val.toUInt8 ∨
        ((globalKeyBytes key)[0]? ≠ some ('m').val.toUInt8 ∧
          (globalKeyBytes key)[0]? ≠ some ('u').val.toUInt8 ∧
          (globalKeyBytes key)[0]? ≠ some ('s').val.toUInt8))) ∧
    ((backingEntityIdForGlobalKey key).2 = false →
      (backingEntityIdForGlobalKey key).1 = { Kind := "", Id := "" }) ∧
    backingEntityIdForGlobalKey "" = ({ Kind := "", Id := "" }, false) ∧
    backingEntityIdForGlobalKey "m#" = ({ Kind := "", Id := "" }, false) := by
  have hl := globalKeyBytes_length key
  have h1 := second_byte_iff key '#' (by decide) (by decide)
  have hm := first_byte_iff key 'm' (by decide) (by decide)
  have hu := first_byte_iff key 'u' (by decide) (by decide)
  have hs := first_byte_iff key 's' (by decide) (by decide)
  simp only [hl, ne_eq, h1, hm, hu, hs]
  have e0 : (⟨0⟩ : String.Pos) = 0 := rfl
  refine ⟨?_, ?_, by decide, by decide⟩
  · unfold backingEntityIdForGlobalKey
    simp only [e0]
    by_cases c1 : key.utf8ByteSize < 3 ∨ key.get ⟨1⟩ ≠ '#'
    · simp only [c1, if_true, true_iff]
      rcases c1 with c | c
      · exact Or.inl c
      · exact Or.inr (Or.inl c)
    · simp only [c1, if_false]
      have c2 : ¬ key.utf8ByteSize < 3 := fun h => c1 (Or.inl h)
      have c3 : key.get ⟨1⟩ = '#' := by
        by_contra h
        exact c1 (Or.inr h)
      by_cases km : key.get 0 = 'm'
      · simp [km, c2, c3]
      · by_cases ku : key.get 0 = 'u'
        · simp [km, ku, c2, c3]
        · by_cases ks : key.get 0 = 's'
          · simp [km, ku, ks, c2, c3]
          · simp [km, ku, ks, c2, c3]
  · unfold backingEntityIdForGlobalKey
    simp only [e0]
    by_cases c1 : key.utf8ByteSize < 3 ∨ key.get ⟨1⟩ ≠ '#'
    · simp only [c1, if_true, implies_true]
    · simp only [c1, if_false]
      by_cases km : key.get 0 = 'm'
      · simp [km]
      · by_cases ku : key.get 0 = 'u'
        · simp [km, ku]
        · by_cases ks : key.get 0 = 's'
          · simp [km, ku, ks]
          · simp [km, ku, ks]

theorem globalKey_unresolved_iff_witness :
    (backingEntityIdForGlobalKey "r#0").2 = false ∧
      (backingEntityIdForGlobalKey "r#0").1 = { Kind := "", Id := "" } :=
  ⟨by decide, (globalKey_unresolved_iff "r#0").2.1 (by decide)⟩

/-! ## The default case of `backingConstraints.updated` -/

theorem Store.keyedByOwnId_all (a : Store) : a.keyedByOwnId :=
  fun _ _ h => Store.Get_EntityId h

theorem backingEntityIdForGlobalKey_kind {key : String} {parentId : EntityId}
    (h : backingEntityIdForGlobalKey key = (parentId, true)) :
    parentId.Kind = "machine" ∨ parentId.Kind = "unit" ∨ parentId.Kind = "service" := by
  unfold backingEntityIdForGlobalKey at h
  split at h
  · simp at h
  · split at h
    · simp only [Info.EntityId, Prod.mk.injEq, and_true] at h
      exact Or.inl (by rw [← h])
    · split at h
      · simp only [Info.EntityId, Prod.mk.injEq, and_true] at h
        exact Or.inr (Or.inl (by rw [← h]))
      · split at h
        · simp only [Info.EntityId, Prod.mk.injEq, and_true] at h
          exact Or.inr (Or.inr (by rw [← h]))
        · simp at h

/-- C21: when every entry of the store is keyed by its own Info's EntityId,
`backingConstraints.updated` never reaches its panicking default case: for every
global key and constraints document it returns no error and does not panic. -/
theorem constraints_updated_never_panics (s : backingConstraints) (st : State)
    (store : Store) (id : String) (hinv : store.keyedByOwnId) :
    (s.updated st store id).result = .ok ∧
    ∀ p, (s.updated st store id).result ≠ .panicked p := by
  suffices h : (s.updated st store id).result = .ok by
    rw [h]
    exact ⟨rfl, fun p e => by cases e⟩
  simp only [backingConstraints.updated]
  cases hk : backingEntityIdForGlobalKey id with
  | mk parentId ok =>
    cases ok with
    | false => rfl
    | true =>
      simp only
      cases hg : store.Get parentId with
      | none => rfl
      | some info =>
        have he := hinv parentId info hg
        have hkind := backingEntityIdForGlobalKey_kind hk
        cases info with
        | machine i => rfl
        | unit i => rfl
        | service i => rfl
        | relation i =>
          rw [← he] at hkind
          simp [Info.EntityId] at hkind
        | annotation i =>
          rw [← he] at hkind
          simp [Info.EntityId] at hkind

theorem constraints_updated_never_panics_witness :
    exampleStore.keyedByOwnId ∧
      (backingConstraints.updated ⟨⟨"mem=4G"⟩⟩ exampleState exampleStore
        "s#wordpress").result = .ok ∧
      ∀ p, (backingConstraints.updated ⟨⟨"mem=4G"⟩⟩ exampleState exampleStore
        "s#wordpress").result ≠ .panicked p :=
  ⟨Store.keyedByOwnId_all exampleStore,
    constraints_updated_never_panics ⟨⟨"mem=4G"⟩⟩ exampleState exampleStore "s#wordpress"
      (Store.keyedByOwnId_all exampleStore)⟩

end Megawatcher

namespace Resource

theorem loop_eq (names : Names) :
    ∀ (services : List String) (args : ListResourcesArgs) (errs : List String),
      NewListResourcesArgs.loop names services args errs =
        ({ Entities := args.Entities ++
            (services.filter names.IsValidApplication).map
              (fun s => { Tag := names.ApplicationTag s }) },
          errs ++ (services.filter (fun s => !names.IsValidApplication s)).map
            (fun s => "invalid application " ++ names.quote s)) := by
  intro services
  induction services with
  | nil => intro args errs; simp [NewListResourcesArgs.loop]
  | cons s rest ih =>
    intro args errs
    cases hv : names.IsValidApplication s <;>
      simp [NewListResourcesArgs.loop, hv, ih]

theorem resolveErrors_isSome (errs : List String) :
    (resolveErrors errs).isSome ↔ errs ≠ [] := by
  cases errs with
  | nil => simp [resolveErrors]
  | cons e es => cases es <;> simp [resolveErrors]

/-- C22: `NewListResourcesArgs` returns an error exactly when some service name
is not a valid application name; the Entities it returns are the application
tags of the valid names, one each, in input order; the error has the message
"invalid application " followed by the name as `%q` renders it, for every
invalid name in input order: that message alone when one name is invalid, the
messages joined by newlines when several are. -/
theorem newListResourcesArgs_spec (names : Names) (services : List String) :
    ((NewListResourcesArgs names services).2 ≠ none ↔
      ∃ s ∈ services, names.IsValidApplication s = false) ∧
    (NewListResourcesArgs names services).1.Entities =
      (services.filter names.IsValidApplication).map
        (fun s => { Tag := names.ApplicationTag s }) ∧
    (∀ msgs : List String,
      msgs = (services.filter (fun s => !names.IsValidApplication s)).map
        (fun s => "invalid application " ++ names.quote s) →
      (msgs = [] → (NewListResourcesArgs names services).2 = none) ∧
      (∀ m, msgs = [m] → (NewListResourcesArgs names services).2 = some m) ∧
      (2 ≤ msgs.length →
        (NewListResourcesArgs names services).2 = some ("\n".intercalate msgs))) := by
  have hl := loop_eq names services { Entities := [] } []
  simp only [List.nil_append] at hl
  have h2 : (NewListResourcesArgs names services).2 =
      resolveErrors ((services.filter (fun s => !names.IsValidApplication s)).map
        (fun s => "invalid application " ++ names.quote s)) := by
    simp only [NewListResourcesArgs, hl]
    cases resolveErrors ((services.filter (fun s => !names.IsValidApplication s)).map
        (fun s => "invalid application " ++ names.quote s)) <;> rfl
  have h1 : (NewListResourcesArgs names services).1.Entities =
      (services.filter names.IsValidApplication).map
        (fun s => { Tag := names.ApplicationTag s }) := by
    simp only [NewListResourcesArgs, hl]
    cases resolveErrors ((services.filter (fun s => !names.IsValidApplication s)).map
        (fun s => "invalid application " ++ names.quote s)) <;> rfl
  refine ⟨?_, h1, ?_⟩
  · rw [h2, ← Option.isSome_iff_ne_none, resolveErrors_isSome]
    simp [List.filter_eq_nil_iff]
  · intro msgs hm
    rw [h2, ← hm]
    refine ⟨?_, ?_, ?_⟩
    · intro h; rw [h]; rfl
    · intro m h; rw [h]; rfl
    · intro h
      match msgs, h with
      | _ :: _ :: _, _ => rfl

theorem newListResourcesArgs_spec_witness :
    ["invalid application \"my sql\"", "invalid application \"\""] =
        (["mysql", "my sql", "", "wordpress"].filter
          (fun s => !exampleNames.IsValidApplication s)).map
          (fun s => "invalid application " ++ exampleNames.quote s) ∧
      (NewListResourcesArgs exampleNames ["mysql", "my sql", "", "wordpress"]).2 =
        some ("\n".intercalate
          ["invalid application \"my sql\"", "invalid application \"\""]) ∧
      (NewListResourcesArgs exampleNames ["mysql", "my sql", "", "wordpress"]).1.Entities =
        [⟨"application-mysql"⟩, ⟨"application-wordpress"⟩] :=
  ⟨by decide,
    ((newListResourcesArgs_spec exampleNames ["mysql", "my sql", "", "wordpress"]).2.2
      ["invalid application \"my sql\"", "invalid application \"\""] (by decide)).2.2
      (by decide),
    by decide⟩

end Resource

namespace Lxd

/-- C23: `lxdInstance.Status` is a total function of the outcome of the state
query. When the query fails with `err` it returns status Empty and the message
"could not get status: " followed by `err`. Otherwise the message is the
container's status string and the status is Allocating for the codes Starting
and Started, Running for the code Running and Empty for every other code.
Pending is never returned. The constants named are those of the two packages,
taken as distinct. -/
theorem status_mapping (api : StatusCodes) (status : Statuses) (lxd : lxdInstance)
    (hcodes : api.Running ≠ api.Starting ∧ api.Running ≠ api.Started)
    (hnames : status.Pending ≠ status.Empty ∧ status.Pending ≠ status.Allocating ∧
      status.Pending ≠ status.Running) :
    (∀ err, lxd.GetContainerState lxd.id = .error err →
      lxd.Status api status =
        { Status := status.Empty, Message := "could not get status: " ++ err }) ∧
    (∀ st, lxd.GetContainerState lxd.id = .ok st →
      (lxd.Status api status).Message = st.Status ∧
      (st.StatusCode = api.Starting ∨ st.StatusCode = api.Started →
        (lxd.Status api status).Status = status.Allocating) ∧
      (st.StatusCode = api.Running → (lxd.Status api status).Status = status.Running) ∧
      (st.StatusCode ≠ api.Starting → st.StatusCode ≠ api.Started →
        st.StatusCode ≠ api.Running → (lxd.Status api status).Status = status.Empty)) ∧
    (lxd.Status api status).Status ≠ status.Pending := by
  refine ⟨?_, ?_, ?_⟩
  · intro err h
    simp only [lxdInstance.Status, h]
  · intro st h
    refine ⟨?_, ?_, ?_, ?_⟩
    · simp only [lxdInstance.Status, h]
    · intro hc
      simp only [lxdInstance.Status, h, hc, if_true]
    · intro hc
      have h1 : ¬ (api.Running = api.Starting ∨ api.Running = api.Started) := by
        rintro (e | e)
        · exact hcodes.1 e
        · exact hcodes.2 e
      simp only [lxdInstance.Status, h, hc, h1, if_true, if_false]
    · intro h1 h2 h3
      simp only [lxdInstance.Status, h, h1, h2, h3, or_self, if_false, ite_self]
  · simp only [lxdInstance.Status]
    cases h : lxd.GetContainerState lxd.id with
    | error err => exact fun e => hnames.1 e.symm
    | ok st =>
      simp only
      split
      · exact fun e => hnames.2.1 e.symm
      · split
        · exact fun e => hnames.2.2 e.symm
        · split
          · exact fun e => hnames.1 e.symm
          · exact fun e => hnames.1 e.symm

theorem status_mapping_witness :
    (lxdStatusCodes.Running ≠ lxdStatusCodes.Starting ∧
      lxdStatusCodes.Running ≠ lxdStatusCodes.Started) ∧
    (jujuStatuses.Pending ≠ jujuStatuses.Empty ∧
      jujuStatuses.Pending ≠ jujuStatuses.Allocating ∧
      jujuStatuses.Pending ≠ jujuStatuses.Running) ∧
    (lxdInstance.Status lxdStatusCodes jujuStatuses
      ⟨"juju-0", fun _ => .ok ⟨"Running", 103⟩⟩).Status ≠ jujuStatuses.Pending :=
  ⟨by decide, by decide,
    (status_mapping lxdStatusCodes jujuStatuses ⟨"juju-0", fun _ => .ok ⟨"Running", 103⟩⟩
      (by decide) (by decide)).2.2⟩

end Lxd
